import Mathlib

/-!
Verification development for the netlist-to-FIRRTL translator
(backends/firrtl/firrtl.cc).  The definitions below are a shallow
embedding of the translator: identifiers and the global name cache,
signal-expression printing, the per-cell emitters, the reverse wire
map, the module walker and the backend driver.  Theorems afterwards
settle the specification claims.
-/

namespace FirB

/-- Tri-state bit values of netlist constants (RTLIL::State): 0, 1, x, z. -/
inductive RState
  | s0
  | s1
  | sx
  | sz
deriving DecidableEq, Repr

/-- Numeric value of one bit; non-0/1 bits count as 0 (as the emitter treats them). -/
def bitVal : RState → Nat
  | RState.s1 => 1
  | _ => 0

/-- Value of an LSB-first bit vector, non-0/1 bits as 0. -/
def bitsVal : List RState → Nat
  | [] => 0
  | b :: rest => bitVal b + 2 * bitsVal rest

/-- A netlist constant is an LSB-first vector of tri-state bits. -/
abbrev Const := List RState

/-- Const::as_int (unsigned use): value of the low 32 bits. -/
def constAsInt (c : Const) : Nat := bitsVal (c.take 32)

/-- Const::as_bool: true iff some bit is 1. -/
def constAsBool (c : Const) : Bool := c.any (fun b => b == RState.s1)

/-- Digit character: '0' + v for v < 10, else 'a' + (v - 10); as in make_expr's literal loop. -/
def hexDigitChar (v : Nat) : Char :=
  if v < 10 then Char.ofNat (48 + v) else Char.ofNat (97 + (v - 10))

/-- Fuel for the decimal printer: 8 digits cover every value the backend prints,
with an always-sufficient fallback for larger numbers. -/
def digitFuel (n : Nat) : Nat := if n < 100000000 then 8 else n + 1

/-- Decimal digits of n (most significant first), fuelled division loop; embeds "%d". -/
def decDigitsF : Nat → Nat → List Char
  | 0, _ => []
  | fuel + 1, n => if n < 10 then [hexDigitChar n] else decDigitsF fuel (n / 10) ++ [hexDigitChar (n % 10)]

/-- stringf("%d", n): decimal rendering of a nonnegative integer. -/
def natToDec (n : Nat) : String := String.mk (decDigitsF (digitFuel n) n)

def decDigitVal (c : Char) : Nat := c.toNat - 48

/-- Re-parse a most-significant-first decimal digit string. -/
def decVal (l : List Char) : Nat := l.foldl (fun a c => 10 * a + decDigitVal c) 0

/-! ## Global name state: used_names, namecache, autoid_counter -/

/-- The process-wide tuple (namecache, used_names, autoid_counter).
The used-name pool is kept as a duplicate-free list. -/
structure GState where
  namecache : List (String × String)
  used : List String
  autoid : Nat
deriving DecidableEq

/-- Boolean membership in the used-name pool (kernel-computable). -/
def memB (s : String) : List String → Bool
  | [] => false
  | x :: rest => if x = s then true else memB s rest

/-- pool::insert - a set insert: add the name unless already present. -/
def insertUsed (s : String) (l : List String) : List String :=
  if memB s l then l else s :: l

/-- dict lookup on the name cache. -/
def lookupNC : List (String × String) → String → Option String
  | [], _ => none
  | p :: rest, k => if p.1 = k then some p.2 else lookupNC rest k

/-- Modelled from the spec: the kernel helper log_id (not under src/) yields the
human-readable spelling of an identifier by stripping the leading escape sigil
(the backslash, character 92). -/
def logId (s : String) : String :=
  match s.data with
  | c :: rest => if c = Char.ofNat 92 then String.mk rest else s
  | [] => s

/-- Character-list prefix test (replaces String.startsWith, kernel-computable). -/
def strStarts (pre s : String) : Bool := List.isPrefixOf pre.data s.data

/-- Characters make_id keeps unchanged: letters, '_' anywhere, digits except at index 0. -/
def keepChar (i : Nat) (c : Char) : Bool :=
  (c ≥ 'a' && c ≤ 'z') || (c ≥ 'A' && c ≤ 'Z') || (i != 0 && (c ≥ '0' && c ≤ '9')) || c == '_'

/-- The character-replacement loop of make_id. -/
def sanitizeBase (s : String) : String :=
  String.mk ((s.data.enum).map (fun p => if keepChar p.1 p.2 then p.2 else '_'))

def uscores (k : Nat) : String := String.mk (List.replicate k '_')

/-- The collision loop of make_id: append underscores while the candidate is taken. -/
def avoidLoop (used : List String) : String → Nat → String
  | s, 0 => s
  | s, fuel + 1 => if memB s used then avoidLoop used (s ++ "_") fuel else s

/-- Candidate produced by make_id for an uncached identifier. -/
def allocName (g : GState) (id : String) : String :=
  avoidLoop g.used (sanitizeBase (logId id)) (g.used.length + 1)

/-- make_id(IdString): cached sanitization of a source identifier. -/
def makeId (g : GState) (id : String) : String × GState :=
  match lookupNC g.namecache id with
  | some out => (out, g)
  | none =>
    (allocName g id,
      ⟨(id, allocName g id) :: g.namecache, insertUsed (allocName g id) g.used, g.autoid⟩)

/-- The counter loop of next_id: try _N for successive N until unused. -/
def nextIdLoop (used : List String) : Nat → Nat → String × Nat
  | a, 0 => ("_" ++ natToDec a, a + 1)
  | a, fuel + 1 =>
    if memB ("_" ++ natToDec a) used then nextIdLoop used (a + 1) fuel
    else ("_" ++ natToDec a, a + 1)

/-- next_id(): allocate a fresh anonymous identifier. -/
def nextId (g : GState) : String × GState :=
  let r := nextIdLoop g.used g.autoid (g.used.length + 1)
  (r.1, ⟨g.namecache, insertUsed r.1 g.used, r.2⟩)

/-! ## Runs of the identifier allocator (for the cache-stability and injectivity claim) -/

/-- One operation on the global name state: sanitize a source id, or mint a fresh id. -/
inductive NOp
  | mk (id : String)
  | fresh

def nstep (g : GState) : NOp → String × GState
  | NOp.mk id => makeId g id
  | NOp.fresh => nextId g

def nrun (g : GState) : List NOp → GState
  | [] => g
  | op :: rest => nrun (nstep g op).2 rest

/-- Global state at the start of a run: empty cache, empty used set, counter 0. -/
def gInit : GState := ⟨[], [], 0⟩

def CacheSub (g : GState) : Prop :=
  ∀ k v, lookupNC g.namecache k = some v → v ∈ g.used

def CacheInj (g : GState) : Prop :=
  ∀ k1 k2 v, lookupNC g.namecache k1 = some v → lookupNC g.namecache k2 = some v → k1 = k2

def NInv (g : GState) : Prop := CacheSub g ∧ CacheInj g

def NotCacheVal (g : GState) (s : String) : Prop :=
  ∀ k v, lookupNC g.namecache k = some v → v ≠ s

/-- Output of the first probed operation in a run from the initial state. -/
def runOut1 (pre : List NOp) (a : NOp) : String := (nstep (nrun gInit pre) a).1

/-- State after the first probed operation and an arbitrary middle segment. -/
def runMidState (pre : List NOp) (a : NOp) (mid : List NOp) : GState :=
  nrun (nstep (nrun gInit pre) a).2 mid

/-- Output of the second probed operation. -/
def runOut2 (pre : List NOp) (a : NOp) (mid : List NOp) (b : NOp) : String :=
  (nstep (runMidState pre a mid) b).1

/-! ## Signals -/

/-- A reference to a wire: its id and full width (RTLIL::Wire as seen from a chunk). -/
structure WireRef where
  name : String
  wwidth : Nat
deriving DecidableEq, Repr

/-- One chunk of a signal: a literal bit vector or a wire slice. -/
inductive SigChunk
  | lit (data : List RState)
  | slice (w : WireRef) (offset width : Nat)
deriving DecidableEq, Repr

/-- A signal: LSB-first list of chunks. -/
abbrev SigSpec := List SigChunk

def chunkWidth : SigChunk → Nat
  | SigChunk.lit d => d.length
  | SigChunk.slice _ _ w => w

def sigWidth (sig : SigSpec) : Nat := (sig.map chunkWidth).sum

/-- Zero-pad a bit vector on the high side to a multiple of 4 bits. -/
def padTo4 (bits : List RState) : List RState :=
  bits ++ List.replicate ((4 - bits.length % 4) % 4) RState.s0

/-- Hex digits of a padded LSB-first bit vector, least significant nibble first. -/
def hexCharsLSB : List RState → List Char
  | b0 :: b1 :: b2 :: b3 :: rest =>
    hexDigitChar (bitVal b0 + 2 * bitVal b1 + 4 * bitVal b2 + 8 * bitVal b3) :: hexCharsLSB rest
  | [] => []
  | l =>
    [hexDigitChar (bitVal (l.getD 0 RState.s0) + 2 * bitVal (l.getD 1 RState.s0) +
      4 * bitVal (l.getD 2 RState.s0) + 8 * bitVal (l.getD 3 RState.s0))]

/-- Hex digit characters of a literal chunk (most significant first), as make_expr emits them. -/
def hexChars (data : List RState) : List Char := (hexCharsLSB (padTo4 data)).reverse

/-- The literal-chunk expression UInt<W>("h...") of make_expr. -/
def litExpr (data : List RState) : String :=
  "UInt<" ++ natToDec data.length ++ ">(\"h" ++ String.mk (hexChars data) ++ "\")"

def hexCharVal (c : Char) : Nat := if c.toNat ≤ 57 then c.toNat - 48 else c.toNat - 87

/-- Re-parse a most-significant-first hex digit string. -/
def parseHex (l : List Char) : Nat := l.foldl (fun a c => 16 * a + hexCharVal c) 0

/-- The sixteen lowercase hex digit characters. -/
def lowerHexDigits : List Char := (List.range 16).map hexDigitChar

/-- Force non-0/1 bits to 0. -/
def zeroizeBit (b : RState) : RState := if b == RState.s1 then RState.s1 else RState.s0

/-- Expression for one chunk of a signal (make_expr body). -/
def chunkExpr (g : GState) : SigChunk → String × GState
  | SigChunk.lit d => (litExpr d, g)
  | SigChunk.slice w off wid =>
    if off == 0 && wid == w.wwidth then makeId g w.name
    else
      ("bits(" ++ (makeId g w.name).1 ++ ", " ++ natToDec (off + wid - 1) ++ ", " ++ natToDec off ++ ")",
        (makeId g w.name).2)

/-- Accumulation step of make_expr: first chunk plain, later chunks wrapped in cat(new, acc). -/
def catAcc (acc ne : String) : String :=
  if acc == "" then ne else "cat(" ++ ne ++ ", " ++ acc ++ ")"

def makeExprAux (g : GState) (acc : String) : List SigChunk → String × GState
  | [] => (acc, g)
  | c :: rest => makeExprAux (chunkExpr g c).2 (catAcc acc (chunkExpr g c).1) rest

/-- make_expr(SigSpec): FIRRTL expression for a signal. -/
def makeExpr (g : GState) (sig : SigSpec) : String × GState := makeExprAux g "" sig

/-- One bit of a signal: a wire bit or a constant bit (RTLIL::SigBit). -/
inductive SigBit
  | wb (w : WireRef) (idx : Nat)
  | cb (s : RState)
deriving DecidableEq, Repr

def chunkBits : SigChunk → List SigBit
  | SigChunk.lit d => d.map SigBit.cb
  | SigChunk.slice w off wid => (List.range wid).map (fun k => SigBit.wb w (off + k))

def sigBits (sig : SigSpec) : List SigBit := (sig.map chunkBits).flatten

/-- Repack a bit list into chunks, merging adjacent wire bits and constant bits
(SigSpec packing, used by extract). -/
def bitsToChunks : List SigBit → SigSpec
  | [] => []
  | SigBit.cb s :: rest =>
    match bitsToChunks rest with
    | SigChunk.lit d :: more => SigChunk.lit (s :: d) :: more
    | more => SigChunk.lit [s] :: more
  | SigBit.wb w i :: rest =>
    match bitsToChunks rest with
    | SigChunk.slice w2 off wid :: more =>
      if w2 == w && off == i + 1 then SigChunk.slice w i (wid + 1) :: more
      else SigChunk.slice w i 1 :: SigChunk.slice w2 off wid :: more
    | more => SigChunk.slice w i 1 :: more

/-- SigSpec::extract(offset, length). -/
def sigExtract (sig : SigSpec) (off len : Nat) : SigSpec :=
  bitsToChunks (((sigBits sig).drop off).take len)

/-! ## Reverse wire map -/

/-- Reverse wire map: latest insertion first; lookup returns the most recent entry. -/
abbrev RMap := List (SigBit × (String × Nat))

def rmapLookup : RMap → SigBit → Option (String × Nat)
  | [], _ => none
  | p :: rest, b => if p.1 = b then some p.2 else rmapLookup rest b

def registerAux (id : String) : RMap → Nat → List SigBit → RMap
  | r, _, [] => r
  | r, i, bb :: rest => registerAux id ((bb, (id, i)) :: r) (i + 1) rest

/-- register_reverse_wire_map(id, sig): record id as the driver of every bit of sig. -/
def registerRWM (r : RMap) (id : String) (sig : SigSpec) : RMap :=
  registerAux id r 0 (sigBits sig)

/-- Pure description of the entry a single registration leaves for a bit. -/
def regLookup (id : String) : Nat → List SigBit → SigBit → Option (String × Nat)
  | _, [], _ => none
  | i, x :: rest, b =>
    match regLookup id (i + 1) rest b with
    | some v => some v
    | none => if b = x then some (id, i) else none

/-! ## Design data model -/

structure Wire where
  name : String
  width : Nat
  portId : Nat
  portInput : Bool
  portOutput : Bool
  initAttr : Option String
deriving DecidableEq, Repr

structure Cell where
  name : String
  ctype : String
  params : List (String × Const)
  ports : List (String × SigSpec)
deriving DecidableEq, Repr

structure ModuleR where
  name : String
  wires : List Wire
  cells : List Cell
  conns : List (SigSpec × SigSpec)
  topAttr : Bool
deriving DecidableEq, Repr

structure Design where
  modules : List ModuleR
  designatedTop : Option String
deriving DecidableEq, Repr

def lookupD {α : Type} (dflt : α) : List (String × α) → String → α
  | [], _ => dflt
  | p :: rest, k => if p.1 = k then p.2 else lookupD dflt rest k

def Cell.paramAt (c : Cell) (k : String) : Const := lookupD [] c.params k

def Cell.portAt (c : Cell) (k : String) : SigSpec := lookupD [] c.ports k

def Design.findModule (d : Design) (n : String) : Option ModuleR :=
  d.modules.find? (fun m => m.name == n)

/-- getPortFDirection: 0 none, 1 in, 2 out, 3 inout, relative to the callee module. -/
def getPortFDirection (m : ModuleR) (portName : String) : Nat :=
  match m.wires.find? (fun w => w.name == portName) with
  | none => 0
  | some w =>
    if w.portId ≠ 0 then (if w.portInput then 1 else 0) + (if w.portOutput then 2 else 0) else 0

/-- The fatal errors (log_error calls) the backend can raise. -/
inductive EmitErr
  | memInitData (m c : String)
  | memNonzeroOffset (m c : String)
  | memClockedRead (i : Nat) (m c : String)
  | memUnclockedWrite (i : Nat) (m c : String)
  | memNegedgeWrite (i : Nat) (m c : String)
  | memComplexWen (i : Nat) (m c : String)
  | inoutPort (m w : String)
  | negedgeFF (m c : String)
  | noModules
deriving DecidableEq, Repr

/-- Per-module worker state: global names, reverse wire map, output buffers,
warning log, lazily allocated invalid-sentinel id ("" when absent). -/
structure MState where
  g : GState
  rmap : RMap
  portDecls : List String
  wireDecls : List String
  cellExprs : List String
  wireExprs : List String
  warns : List String
  unconn : String
  mname : String
deriving DecidableEq

/-! ## Parameter and port keys -/

def aKey : String := "\\A"
def bKey : String := "\\B"
def sKey : String := "\\S"
def yKey : String := "\\Y"
def dKey : String := "\\D"
def qKey : String := "\\Q"
def clkKey : String := "\\CLK"
def aSignedKey : String := "\\A_SIGNED"
def bSignedKey : String := "\\B_SIGNED"
def aWidthKey : String := "\\A_WIDTH"
def bWidthKey : String := "\\B_WIDTH"
def yWidthKey : String := "\\Y_WIDTH"
def widthKey : String := "\\WIDTH"
def clkPolKey : String := "\\CLK_POLARITY"
def abitsKey : String := "\\ABITS"
def sizeKey : String := "\\SIZE"
def rdPortsKey : String := "\\RD_PORTS"
def wrPortsKey : String := "\\WR_PORTS"
def initKey : String := "\\INIT"
def offsetKey : String := "\\OFFSET"
def rdClkEnKey : String := "\\RD_CLK_ENABLE"
def wrClkEnKey : String := "\\WR_CLK_ENABLE"
def wrClkPolKey : String := "\\WR_CLK_POLARITY"
def rdDataKey : String := "\\RD_DATA"
def rdAddrKey : String := "\\RD_ADDR"
def wrDataKey : String := "\\WR_DATA"
def wrAddrKey : String := "\\WR_ADDR"
def wrClkKey : String := "\\WR_CLK"
def wrEnKey : String := "\\WR_EN"

/-! ## Cell emitters -/

/-- One greater than the maximum allowed dynamic shift width. -/
def FIRRTL_MAX_DSH_WIDTH : Nat := 20

/-- UInt<19>(524287), the saturation constant of gen_dshl. -/
def genDshlMax : String :=
  "UInt<" ++ natToDec (FIRRTL_MAX_DSH_WIDTH - 1) ++ ">(" ++
    natToDec (2 ^ (FIRRTL_MAX_DSH_WIDTH - 1) - 1) ++ ")"

/-- gen_dshl: guard a dynamic shift amount against FIRRTL's width cap. -/
def genDshl (bExpr : String) (bPaddedWidth : Nat) : String :=
  if bPaddedWidth ≥ FIRRTL_MAX_DSH_WIDTH then
    "mux(gt(" ++ bExpr ++ ", " ++ genDshlMax ++ "), " ++ genDshlMax ++ ", bits(" ++ bExpr ++
      ", " ++ natToDec (FIRRTL_MAX_DSH_WIDTH - 1 - 1) ++ ", 0))"
  else bExpr

def unaryTypes : List String :=
  ["$not", "$logic_not", "$neg", "$reduce_and", "$reduce_or", "$reduce_xor", "$reduce_bool",
   "$reduce_xnor"]

def binaryTypes : List String :=
  ["$add", "$sub", "$mul", "$div", "$mod", "$xor", "$and", "$or", "$eq", "$eqx", "$gt", "$ge",
   "$lt", "$le", "$ne", "$nex", "$shr", "$sshr", "$sshl", "$shl", "$logic_and", "$logic_or"]

def shiftTypes : List String := ["$shr", "$sshr", "$shl", "$sshl"]

def noPadTypes : List String :=
  ["$eq", "$eqx", "$gt", "$ge", "$lt", "$le", "$ne", "$nex", "$reduce_bool", "$logic_not"]

def isFullyConst (sig : SigSpec) : Bool :=
  sig.all (fun ch => match ch with | SigChunk.lit _ => true | _ => false)

/-- Unary-operator branch of the cell loop. -/
def emitUnary (st : MState) (c : Cell) : MState :=
  let yId := (makeId st.g c.name).1
  let g1 := (makeId st.g c.name).2
  let isSigned := constAsBool (c.paramAt aSignedKey)
  let yWidth := constAsInt (c.paramAt yWidthKey)
  let aExpr0 := (makeExpr g1 (c.portAt aKey)).1
  let g2 := (makeExpr g1 (c.portAt aKey)).2
  let aExpr1 := if isSigned then "asSInt(" ++ aExpr0 ++ ")" else aExpr0
  let aExpr2 :=
    if !(noPadTypes.contains c.ctype && yWidth == 1) then
      "pad(" ++ aExpr1 ++ ", " ++ natToDec yWidth ++ ")"
    else aExpr1
  let pr : String × String :=
    if c.ctype == "$not" then ("not", aExpr2)
    else if c.ctype == "$neg" then ("neg", aExpr2)
    else if c.ctype == "$logic_not" then ("eq", aExpr2 ++ ", UInt(0)")
    else if c.ctype == "$reduce_and" then ("andr", aExpr2)
    else if c.ctype == "$reduce_or" then ("orr", aExpr2)
    else if c.ctype == "$reduce_xor" then ("xorr", aExpr2)
    else if c.ctype == "$reduce_xnor" then ("not", "xorr(" ++ aExpr2 ++ ")")
    else if c.ctype == "$reduce_bool" then
      ("neq", aExpr2 ++ ", " ++ (if isSigned then "S" else "U") ++ "Int<" ++
        natToDec (constAsInt (c.paramAt aWidthKey)) ++ ">(0)")
    else ("", aExpr2)
  let expr0 := pr.1 ++ "(" ++ pr.2 ++ ")"
  let expr := if isSigned then "asUInt(" ++ expr0 ++ ")" else expr0
  { st with
    g := g2,
    wireDecls := st.wireDecls ++ ["    wire " ++ yId ++ ": UInt<" ++ natToDec yWidth ++ ">\n"],
    cellExprs := st.cellExprs ++ ["    " ++ yId ++ " <= " ++ expr ++ "\n"],
    rmap := registerRWM st.rmap yId (c.portAt yKey) }

/-- Binary-operator branch of the cell loop. -/
def emitBinary (st : MState) (c : Cell) : MState :=
  let yId := (makeId st.g c.name).1
  let g1 := (makeId st.g c.name).2
  let isSigned := constAsBool (c.paramAt aSignedKey)
  let yWidth := constAsInt (c.paramAt yWidthKey)
  let aExpr0 := (makeExpr g1 (c.portAt aKey)).1
  let g2 := (makeExpr g1 (c.portAt aKey)).2
  let bExpr0 := (makeExpr g2 (c.portAt bKey)).1
  let g3 := (makeExpr g2 (c.portAt bKey)).2
  let bPaddedWidth0 := constAsInt (c.paramAt bWidthKey)
  let aExpr1 := if isSigned then "asSInt(" ++ aExpr0 ++ ")" else aExpr0
  let isShift := shiftTypes.contains c.ctype
  let bSigned := constAsBool (c.paramAt bSignedKey)
  let bExpr1 := if !isShift && bSigned then "asSInt(" ++ bExpr0 ++ ")" else bExpr0
  let bPaddedWidth := if !isShift && bPaddedWidth0 < yWidth then yWidth else bPaddedWidth0
  let aExpr2 := if isSigned && c.ctype == "$shr" then "asUInt(" ++ aExpr1 ++ ")" else aExpr1
  let pinfo : String × Bool × Bool × String :=
    if c.ctype == "$add" then ("add", false, false, bExpr1)
    else if c.ctype == "$sub" then ("sub", false, false, bExpr1)
    else if c.ctype == "$mul" then ("mul", false, false, bExpr1)
    else if c.ctype == "$div" then ("div", false, false, bExpr1)
    else if c.ctype == "$mod" then ("rem", false, false, bExpr1)
    else if c.ctype == "$and" then ("and", true, false, bExpr1)
    else if c.ctype == "$or" then ("or", true, false, bExpr1)
    else if c.ctype == "$xor" then ("xor", true, false, bExpr1)
    else if c.ctype == "$eq" || c.ctype == "$eqx" then ("eq", true, false, bExpr1)
    else if c.ctype == "$ne" || c.ctype == "$nex" then ("neq", true, false, bExpr1)
    else if c.ctype == "$gt" then ("gt", true, false, bExpr1)
    else if c.ctype == "$ge" then ("geq", true, false, bExpr1)
    else if c.ctype == "$lt" then ("lt", true, false, bExpr1)
    else if c.ctype == "$le" then ("leq", true, false, bExpr1)
    else if c.ctype == "$shl" || c.ctype == "$sshl" then
      (if isFullyConst (c.portAt bKey) then ("shl", false, true, bExpr1)
       else ("dshl", false, true, genDshl bExpr1 bPaddedWidth))
    else if c.ctype == "$shr" || c.ctype == "$sshr" then
      (if isFullyConst (c.portAt bKey) then ("shr", false, false, bExpr1)
       else ("dshr", false, false, bExpr1))
    else if c.ctype == "$logic_and" then ("and", true, false, "neq(" ++ bExpr1 ++ ", UInt(0))")
    else if c.ctype == "$logic_or" then ("or", true, false, "neq(" ++ bExpr1 ++ ", UInt(0))")
    else ("", false, false, bExpr1)
  let aExpr3 :=
    if c.ctype == "$logic_and" || c.ctype == "$logic_or" then "neq(" ++ aExpr2 ++ ", UInt(0))"
    else aExpr2
  let bExpr := if !bSigned then "asUInt(" ++ pinfo.2.2.2 ++ ")" else pinfo.2.2.2
  let expr0 := pinfo.1 ++ "(" ++ aExpr3 ++ ", " ++ bExpr ++ ")"
  let expr1 :=
    if pinfo.2.2.1 then "bits(" ++ expr0 ++ ", " ++ natToDec (yWidth - 1) ++ ", 0)" else expr0
  let expr :=
    if (isSigned && !pinfo.2.1) || c.ctype == "$sub" then "asUInt(" ++ expr1 ++ ")" else expr1
  { st with
    g := g3,
    wireDecls := st.wireDecls ++ ["    wire " ++ yId ++ ": UInt<" ++ natToDec yWidth ++ ">\n"],
    cellExprs := st.cellExprs ++ ["    " ++ yId ++ " <= " ++ expr ++ "\n"],
    rmap := registerRWM st.rmap yId (c.portAt yKey) }

/-- $mux branch: declare a WIDTH-wide result wire and emit mux(S, B, A). -/
def emitMux (st : MState) (c : Cell) : MState :=
  let yId := (makeId st.g c.name).1
  let g1 := (makeId st.g c.name).2
  let width := constAsInt (c.paramAt widthKey)
  let aExpr := (makeExpr g1 (c.portAt aKey)).1
  let g2 := (makeExpr g1 (c.portAt aKey)).2
  let bExpr := (makeExpr g2 (c.portAt bKey)).1
  let g3 := (makeExpr g2 (c.portAt bKey)).2
  let sExpr := (makeExpr g3 (c.portAt sKey)).1
  let g4 := (makeExpr g3 (c.portAt sKey)).2
  { st with
    g := g4,
    wireDecls := st.wireDecls ++ ["    wire " ++ yId ++ ": UInt<" ++ natToDec width ++ ">\n"],
    cellExprs := st.cellExprs ++ ["    " ++ yId ++ " <= mux(" ++ sExpr ++ ", " ++ bExpr ++ ", " ++ aExpr ++ ")\n"],
    rmap := registerRWM st.rmap yId (c.portAt yKey) }

/-- $dff branch: reject negedge clocks, declare a reg, assign D. -/
def emitDff (st : MState) (c : Cell) : Except EmitErr MState :=
  if constAsBool (c.paramAt clkPolKey) == false then
    Except.error (EmitErr.negedgeFF st.mname c.name)
  else
    let qId := (makeId st.g c.name).1
    let g1 := (makeId st.g c.name).2
    let width := constAsInt (c.paramAt widthKey)
    let expr := (makeExpr g1 (c.portAt dKey)).1
    let g2 := (makeExpr g1 (c.portAt dKey)).2
    let clkExpr := "asClock(" ++ (makeExpr g2 (c.portAt clkKey)).1 ++ ")"
    let g3 := (makeExpr g2 (c.portAt clkKey)).2
    Except.ok { st with
      g := g3,
      wireDecls := st.wireDecls ++ ["    reg " ++ qId ++ ": UInt<" ++ natToDec width ++ ">, " ++ clkExpr ++ "\n"],
      cellExprs := st.cellExprs ++ ["    " ++ qId ++ " <= " ++ expr ++ "\n"],
      rmap := registerRWM st.rmap qId (c.portAt qKey) }

/-- $shiftx branch. -/
def emitShiftx (st : MState) (c : Cell) : MState :=
  let yId := (makeId st.g c.name).1
  let g1 := (makeId st.g c.name).2
  let yWidth := constAsInt (c.paramAt yWidthKey)
  let aExpr := (makeExpr g1 (c.portAt aKey)).1
  let g2 := (makeExpr g1 (c.portAt aKey)).2
  let bExpr0 := (makeExpr g2 (c.portAt bKey)).1
  let g3 := (makeExpr g2 (c.portAt bKey)).2
  let bExpr :=
    if constAsBool (c.paramAt bSignedKey) then
      "validif(not(bits(" ++ bExpr0 ++ ", " ++ natToDec (constAsInt (c.paramAt bWidthKey) - 1) ++
        ", " ++ natToDec (constAsInt (c.paramAt bWidthKey) - 1) ++ ")), " ++ bExpr0 ++ ")"
    else bExpr0
  { st with
    g := g3,
    wireDecls := st.wireDecls ++ ["    wire " ++ yId ++ ": UInt<" ++ natToDec yWidth ++ ">\n"],
    cellExprs := st.cellExprs ++ ["    " ++ yId ++ " <= dshr(" ++ aExpr ++ ", " ++ bExpr ++ ")\n"],
    rmap := registerRWM st.rmap yId (c.portAt yKey) }

/-- $shift branch. -/
def emitShift (st : MState) (c : Cell) : MState :=
  let yId := (makeId st.g c.name).1
  let g1 := (makeId st.g c.name).2
  let yWidth := constAsInt (c.paramAt yWidthKey)
  let aExpr := (makeExpr g1 (c.portAt aKey)).1
  let g2 := (makeExpr g1 (c.portAt aKey)).2
  let bExpr := (makeExpr g2 (c.portAt bKey)).1
  let g3 := (makeExpr g2 (c.portAt bKey)).2
  let bPaddedWidth := constAsInt (c.paramAt bWidthKey)
  let expr :=
    if constAsBool (c.paramAt bSignedKey) then
      "mux(" ++ bExpr ++ " < 0, " ++
        ("bits(dshl(" ++ aExpr ++ ", " ++ genDshl bExpr bPaddedWidth ++ "), 0, " ++
          natToDec yWidth ++ ")") ++ ", " ++ ("dshr(" ++ aExpr ++ ", " ++ bExpr ++ ")") ++ ")"
    else "dshr(" ++ aExpr ++ ", " ++ bExpr ++ ")"
  { st with
    g := g3,
    wireDecls := st.wireDecls ++ ["    wire " ++ yId ++ ": UInt<" ++ natToDec yWidth ++ ">\n"],
    cellExprs := st.cellExprs ++ ["    " ++ yId ++ " <= " ++ expr ++ "\n"],
    rmap := registerRWM st.rmap yId (c.portAt yKey) }

/-- The $paramod character rewriting of process_instance; the coded characters are
backslash (92), equals (61), apostrophe (39) and dollar (36), mapped to underscore (95). -/
def sanitizeParamod (s : String) : String :=
  String.mk (s.data.map (fun ch =>
    if ch == Char.ofNat 92 || ch == Char.ofNat 61 || ch == Char.ofNat 39 || ch == Char.ofNat 36
    then Char.ofNat 95 else ch))

/-- Port-connection loop of process_instance. -/
def instConns (cellTypeS cellName : String) (instMod : ModuleR) :
    MState → List (String × SigSpec) → MState
  | st, [] => st
  | st, pc :: rest =>
    if sigWidth pc.2 > 0 then
      let pid := (makeId st.g pc.1).1
      let g1 := (makeId st.g pc.1).2
      let firstName := cellName ++ "." ++ pid
      let secondName := (makeExpr g1 pc.2).1
      let g2 := (makeExpr g1 pc.2).2
      let dir := getPortFDirection instMod pc.1
      let warn : List String :=
        if dir == 3 then
          ["Instance port connection " ++ cellTypeS ++ " is INOUT; treating as OUT"]
        else if dir == 0 then
          ["Instance port connection " ++ cellTypeS ++ " is NODIRECTION; treating as IN"]
        else []
      let line :=
        if dir == 3 || dir == 2 then "\n    " ++ secondName ++ " <= " ++ firstName
        else "\n    " ++ firstName ++ " <= " ++ secondName
      instConns cellTypeS cellName instMod
        { st with
          g := g2,
          warns := st.warns ++ warn,
          wireExprs := st.wireExprs ++ [line] } rest
    else instConns cellTypeS cellName instMod st rest

/-- process_instance: emit an inst statement and port connections, or warn and skip
when the callee module is absent from the design. -/
def processInstance (st : MState) (d : Design) (c : Cell) : MState :=
  let cellTypeS := (makeId st.g c.ctype).1
  let g1 := (makeId st.g c.ctype).2
  let instanceOf := if strStarts "$paramod" c.ctype then sanitizeParamod cellTypeS else cellTypeS
  let cellName := (makeId g1 c.name).1
  let g2 := (makeId g1 c.name).2
  match d.findModule c.ctype with
  | none =>
    { st with
      g := g2,
      warns := st.warns ++ ["No instance for " ++ cellTypeS ++ "." ++ cellName] }
  | some instMod =>
    let st1 := { st with
      g := g2,
      wireExprs := st.wireExprs ++ ["    inst " ++ cellName ++ " of " ++ instanceOf] }
    let st2 := instConns cellTypeS cellName instMod st1 c.ports
    { st2 with wireExprs := st2.wireExprs ++ ["\n"] }

/-- Read-port loop of the $mem branch. -/
def memReadLoop (memId cname : String) (rdClkEn : Const) (width abits : Nat)
    (rdData rdAddr : SigSpec) : MState → List Nat → Except EmitErr MState
  | st, [] => Except.ok st
  | st, i :: rest =>
    if !(rdClkEn.getD i RState.sx == RState.s0) then
      Except.error (EmitErr.memClockedRead i st.mname cname)
    else
      let dataSig := sigExtract rdData (i * width) width
      let addrExpr := (makeExpr st.g (sigExtract rdAddr (i * abits) abits)).1
      let g1 := (makeExpr st.g (sigExtract rdAddr (i * abits) abits)).2
      memReadLoop memId cname rdClkEn width abits rdData rdAddr
        { st with
          g := g1,
          cellExprs := st.cellExprs ++
            ["    " ++ memId ++ ".r" ++ natToDec i ++ ".addr <= " ++ addrExpr ++ "\n",
             "    " ++ memId ++ ".r" ++ natToDec i ++ ".en <= UInt<1>(1)\n",
             "    " ++ memId ++ ".r" ++ natToDec i ++ ".clk <= asClock(UInt<1>(0))\n"],
          rmap := registerRWM st.rmap (memId ++ ".r" ++ natToDec i ++ ".data") dataSig } rest

/-- The per-port write-enable bit slice WR_EN[i*width +: width]. -/
def wenBitsW (wrEn : SigSpec) (width i : Nat) : List SigBit :=
  ((sigBits wrEn).drop (i * width)).take width

/-- Per-bit write-enable uniformity check of the $mem branch (indices from 1). -/
def wenCheck (mname cname : String) (wen : List SigBit) : List Nat → Except EmitErr Unit
  | [] => Except.ok ()
  | j :: rest =>
    if !(wen.getD 0 (SigBit.cb RState.sx) == wen.getD j (SigBit.cb RState.sx)) then
      Except.error (EmitErr.memComplexWen j mname cname)
    else wenCheck mname cname wen rest

/-- Write-port loop of the $mem branch. -/
def memWriteLoop (memId cname : String) (wrClkEn wrClkPol : Const) (width abits : Nat)
    (wrData wrAddr wrClk wrEn : SigSpec) : MState → List Nat → Except EmitErr MState
  | st, [] => Except.ok st
  | st, i :: rest =>
    if !(wrClkEn.getD i RState.sx == RState.s1) then
      Except.error (EmitErr.memUnclockedWrite i st.mname cname)
    else if !(wrClkPol.getD i RState.sx == RState.s1) then
      Except.error (EmitErr.memNegedgeWrite i st.mname cname)
    else
      let addrExpr := (makeExpr st.g (sigExtract wrAddr (i * abits) abits)).1
      let g1 := (makeExpr st.g (sigExtract wrAddr (i * abits) abits)).2
      let dataExpr := (makeExpr g1 (sigExtract wrData (i * width) width)).1
      let g2 := (makeExpr g1 (sigExtract wrData (i * width) width)).2
      let clkExpr := (makeExpr g2 (sigExtract wrClk i 1)).1
      let g3 := (makeExpr g2 (sigExtract wrClk i 1)).2
      let wenBits := wenBitsW wrEn width i
      let wenExpr := (makeExpr g3 (bitsToChunks [wenBits.getD 0 (SigBit.cb RState.sx)])).1
      let g4 := (makeExpr g3 (bitsToChunks [wenBits.getD 0 (SigBit.cb RState.sx)])).2
      match wenCheck st.mname cname wenBits ((List.range wenBits.length).drop 1) with
      | Except.error e => Except.error e
      | Except.ok _ =>
        memWriteLoop memId cname wrClkEn wrClkPol width abits wrData wrAddr wrClk wrEn
          { st with
            g := g4,
            cellExprs := st.cellExprs ++
              ["    " ++ memId ++ ".w" ++ natToDec i ++ ".addr <= " ++ addrExpr ++ "\n",
               "    " ++ memId ++ ".w" ++ natToDec i ++ ".data <= " ++ dataExpr ++ "\n",
               "    " ++ memId ++ ".w" ++ natToDec i ++ ".en <= " ++ wenExpr ++ "\n",
               "    " ++ memId ++ ".w" ++ natToDec i ++ ".mask <= UInt<1>(1)\n",
               "    " ++ memId ++ ".w" ++ natToDec i ++ ".clk <= asClock(" ++ clkExpr ++ ")\n"] }
          rest

/-- $mem branch: reject unsupported configurations, emit the mem declaration and ports. -/
def emitMem (st : MState) (c : Cell) : Except EmitErr MState :=
  let memId := (makeId st.g c.name).1
  let g1 := (makeId st.g c.name).2
  let abits := constAsInt (c.paramAt abitsKey)
  let width := constAsInt (c.paramAt widthKey)
  let size := constAsInt (c.paramAt sizeKey)
  let rdPorts := constAsInt (c.paramAt rdPortsKey)
  let wrPorts := constAsInt (c.paramAt wrPortsKey)
  if (c.paramAt initKey).any (fun b => !(b == RState.sx)) then
    Except.error (EmitErr.memInitData st.mname c.name)
  else if !(constAsInt (c.paramAt offsetKey) == 0) then
    Except.error (EmitErr.memNonzeroOffset st.mname c.name)
  else
    let st1 := { st with
      g := g1,
      cellExprs := st.cellExprs ++
        (["    mem " ++ memId ++ ":\n",
          "      data-type => UInt<" ++ natToDec width ++ ">\n",
          "      depth => " ++ natToDec size ++ "\n"] ++
         ((List.range rdPorts).map (fun i => "      reader => r" ++ natToDec i ++ "\n")) ++
         ((List.range wrPorts).map (fun i => "      writer => w" ++ natToDec i ++ "\n")) ++
         ["      read-latency => 0\n", "      write-latency => 1\n",
          "      read-under-write => undefined\n"]) }
    match memReadLoop memId c.name (c.paramAt rdClkEnKey) width abits (c.portAt rdDataKey)
        (c.portAt rdAddrKey) st1 (List.range rdPorts) with
    | Except.error e => Except.error e
    | Except.ok st2 =>
      memWriteLoop memId c.name (c.paramAt wrClkEnKey) (c.paramAt wrClkPolKey) width abits
        (c.portAt wrDataKey) (c.portAt wrAddrKey) (c.portAt wrClkKey) (c.portAt wrEnKey) st2
        (List.range wrPorts)

/-- The cell-type dispatch of FirrtlWorker::run. -/
def emitCell (d : Design) (st : MState) (c : Cell) : Except EmitErr MState :=
  if !(strStarts "$" c.ctype) then Except.ok (processInstance st d c)
  else if unaryTypes.contains c.ctype then Except.ok (emitUnary st c)
  else if binaryTypes.contains c.ctype then Except.ok (emitBinary st c)
  else if c.ctype == "$mux" then Except.ok (emitMux st c)
  else if c.ctype == "$mem" then emitMem st c
  else if c.ctype == "$memwr" || c.ctype == "$memrd" then Except.ok st
  else if c.ctype == "$dff" then emitDff st c
  else if strStarts "$paramod" c.ctype then Except.ok (processInstance st d c)
  else if c.ctype == "$shiftx" then Except.ok (emitShiftx st c)
  else if c.ctype == "$shift" then Except.ok (emitShift st c)
  else Except.ok { st with warns := st.warns ++ ["Cell type not supported: " ++ c.ctype] }

/-! ## Module walker -/

/-- Port and wire declaration pass over the module's wires. -/
def wireDeclPass : MState → List Wire → Except EmitErr MState
  | st, [] => Except.ok st
  | st, w :: rest =>
    let wname := (makeId st.g w.name).1
    let g1 := (makeId st.g w.name).2
    let warns1 := st.warns ++
      (match w.initAttr with
       | some v =>
         ["Initial value (" ++ v ++ ") for (" ++ logId st.mname ++ "." ++ logId w.name ++
           ") not supported"]
       | none => [])
    if w.portId ≠ 0 then
      if w.portInput && w.portOutput then Except.error (EmitErr.inoutPort st.mname w.name)
      else
        wireDeclPass { st with
          g := g1,
          warns := warns1,
          portDecls := st.portDecls ++
            ["    " ++ (if w.portInput then "input" else "output") ++ " " ++ wname ++ ": UInt<" ++
              natToDec w.width ++ ">\n"] } rest
    else
      wireDeclPass { st with
        g := g1,
        warns := warns1,
        wireDecls := st.wireDecls ++
          ["    wire " ++ wname ++ ": UInt<" ++ natToDec w.width ++ ">\n"] } rest

/-- The cells loop. -/
def cellsPass (d : Design) : MState → List Cell → Except EmitErr MState
  | st, [] => Except.ok st
  | st, c :: rest =>
    match emitCell d st c with
    | Except.error e => Except.error e
    | Except.ok st1 => cellsPass d st1 rest

/-- The module-level connections loop: fresh wire per connection, registered as driver
of the left-hand signal. -/
def connsPass : MState → List (SigSpec × SigSpec) → MState
  | st, [] => st
  | st, pc :: rest =>
    let yId := (nextId st.g).1
    let g1 := (nextId st.g).2
    let yWidth := sigWidth pc.1
    let expr := (makeExpr g1 pc.2).1
    let g2 := (makeExpr g1 pc.2).2
    connsPass { st with
      g := g2,
      wireDecls := st.wireDecls ++ ["    wire " ++ yId ++ ": UInt<" ++ natToDec yWidth ++ ">\n"],
      cellExprs := st.cellExprs ++ ["    " ++ yId ++ " <= " ++ expr ++ "\n"],
      rmap := registerRWM st.rmap yId pc.1 } rest

/-- One reassembled chunk of a wire: a driven run rendered bits(id, off+cw-1, off),
or a one-bit hole rendered as the invalid-sentinel id. -/
inductive RChunk
  | driven (id : String) (off cw : Nat)
  | hole (id : String)
deriving DecidableEq, Repr

def RChunk.cwidth : RChunk → Nat
  | RChunk.driven _ _ cw => cw
  | RChunk.hole _ => 1

/-- Result of walking one wire's bits. -/
structure WalkOut where
  chunks : List RChunk
  g : GState
  unconn : String
  makeUnconn : Bool
deriving DecidableEq

/-- The inner while loop: length of the run of consecutive map entries (same id,
consecutive offsets) starting at cursor. -/
def runLen (rmap : RMap) (w : WireRef) (width : Nat) (cursor : Nat) (id : String) (off : Nat) :
    Nat → Nat → Nat
  | cw, 0 => cw
  | cw, fuel + 1 =>
    if cursor + cw < width then
      if rmapLookup rmap (SigBit.wb w (cursor + cw)) = some (id, off + cw) then
        runLen rmap w width cursor id off (cw + 1) fuel
      else cw
    else cw

/-- The outer while loop over a wire's bits: collect chunks, allocating the
invalid-sentinel wire lazily at the first undriven bit. -/
def wireWalk (rmap : RMap) (w : WireRef) (width : Nat) :
    GState → String → Bool → Nat → Nat → WalkOut
  | g, unconn, mku, _, 0 => ⟨[], g, unconn, mku⟩
  | g, unconn, mku, cursor, fuel + 1 =>
    if cursor < width then
      match rmapLookup rmap (SigBit.wb w cursor) with
      | some e =>
        let cw := runLen rmap w width cursor e.1 e.2 1 width
        let rest := wireWalk rmap w width g unconn mku (cursor + cw) fuel
        ⟨RChunk.driven e.1 e.2 cw :: rest.chunks, rest.g, rest.unconn, rest.makeUnconn⟩
      | none =>
        if unconn == "" then
          let u := (nextId g).1
          let g1 := (nextId g).2
          let rest := wireWalk rmap w width g1 u true (cursor + 1) fuel
          ⟨RChunk.hole u :: rest.chunks, rest.g, rest.unconn, rest.makeUnconn⟩
        else
          let rest := wireWalk rmap w width g unconn mku (cursor + 1) fuel
          ⟨RChunk.hole unconn :: rest.chunks, rest.g, rest.unconn, rest.makeUnconn⟩
    else ⟨[], g, unconn, mku⟩

def renderChunk : RChunk → String
  | RChunk.driven id off cw => "bits(" ++ id ++ ", " ++ natToDec (off + cw - 1) ++ ", " ++ natToDec off ++ ")"
  | RChunk.hole u => u

/-- The cat-fold over a wire's chunks (same accumulation as make_expr). -/
def renderChunks (l : List RChunk) : String :=
  l.foldl (fun acc ch => catAcc acc (renderChunk ch)) ""

def hasDriven (l : List RChunk) : Bool :=
  l.any (fun ch => match ch with | RChunk.driven _ _ _ => true | _ => false)

/-- Final wire pass for one wire: skip inputs, otherwise assign the reassembled
expression (declaring the sentinel if this wire allocated it) or mark the wire invalid. -/
def emitWire (st : MState) (w : Wire) : MState :=
  if w.portInput then st
  else
    let r := wireWalk st.rmap ⟨w.name, w.width⟩ w.width st.g st.unconn false 0 w.width
    if hasDriven r.chunks then
      let wname := (makeId r.g w.name).1
      let g2 := (makeId r.g w.name).2
      { st with
        g := g2,
        unconn := r.unconn,
        wireDecls := st.wireDecls ++
          (if r.makeUnconn then
            ["    wire " ++ r.unconn ++ ": UInt<1>\n", "    " ++ r.unconn ++ " is invalid\n"]
           else []),
        wireExprs := st.wireExprs ++ ["    " ++ wname ++ " <= " ++ renderChunks r.chunks ++ "\n"] }
    else
      let wname := (makeId r.g w.name).1
      let g2 := (makeId r.g w.name).2
      { st with
        g := g2,
        unconn := (if r.makeUnconn then "" else r.unconn),
        wireDecls := st.wireDecls ++ ["    " ++ wname ++ " is invalid\n"] }

def wiresPass (st : MState) (ws : List Wire) : MState := ws.foldl emitWire st

def initMState (g : GState) (mname : String) : MState :=
  ⟨g, [], [], [], [], [], [], "", mname⟩

/-- Flush order: ports, blank, wires, blank, cell exprs, blank, wire exprs. -/
def renderModule (header : String) (st : MState) : String :=
  header ++ String.join st.portDecls ++ "\n" ++ String.join st.wireDecls ++ "\n" ++
    String.join st.cellExprs ++ "\n" ++ String.join st.wireExprs

/-- FirrtlWorker::run for one module. -/
def runModule (d : Design) (g : GState) (m : ModuleR) : Except EmitErr (MState × String) :=
  let mid := (makeId g m.name).1
  let g1 := (makeId g m.name).2
  let header := "  module " ++ mid ++ ":\n"
  match wireDeclPass (initMState g1 m.name) m.wires with
  | Except.error e => Except.error e
  | Except.ok st1 =>
    match cellsPass d st1 m.cells with
    | Except.error e => Except.error e
    | Except.ok st2 =>
      let st3 := connsPass st2 m.conns
      let st4 := wiresPass st3 m.wires
      Except.ok (st4, renderModule header st4)

/-! ## Backend driver -/

/-- Name-seeding loop of execute: sanitize every module name and port-wire name,
track the first module carrying a top attribute and the last module. -/
def seedLoop : GState → Option ModuleR → Option ModuleR → List ModuleR →
    GState × Option ModuleR × Option ModuleR
  | g, top, last, [] => (g, top, last)
  | g, top, _, m :: rest =>
    let g1 := (makeId g m.name).2
    let top1 := if top.isNone && m.topAttr then some m else top
    let g2 := (m.wires.filter (fun w => w.portId != 0)).foldl (fun gg w => (makeId gg w.name).2) g1
    seedLoop g2 top1 (some m) rest

/-- Modelled from the spec: design->top_module() (not under src/) returns the design's
designated top module, if any. -/
def designatedTopModule (d : Design) : Option ModuleR :=
  match d.designatedTop with
  | none => none
  | some n => d.findModule n

def modulesLoop (d : Design) : GState → String → List ModuleR → Except EmitErr (String × GState)
  | g, acc, [] => Except.ok (acc, g)
  | g, acc, m :: rest =>
    match runModule d g m with
    | Except.error e => Except.error e
    | Except.ok (st, out) => modulesLoop d st.g (acc ++ out) rest

/-- FirrtlBackend::execute for one invocation: at entry the namecache and counter
are cleared but used_names is kept (as in the source); likewise at exit. -/
def executeRun (d : Design) (gIn : GState) : Except EmitErr (String × GState) :=
  let g0 : GState := ⟨[], gIn.used, 0⟩
  let s := seedLoop g0 (designatedTopModule d) none d.modules
  let topOpt := match s.2.1 with | some t => some t | none => s.2.2
  match topOpt with
  | none => Except.error EmitErr.noModules
  | some top =>
    let tp := (makeId s.1 top.name).1
    let g2 := (makeId s.1 top.name).2
    match modulesLoop d g2 ("circuit " ++ tp ++ ":\n") d.modules with
    | Except.error e => Except.error e
    | Except.ok (out, gFin) => Except.ok (out, ⟨[], gFin.used, 0⟩)

/-! ## Specification predicates used by the claim theorems -/

/-- Correct reassembly of a wire's chunks from position p: driven chunks are maximal
runs of consecutive reverse-map entries, holes are undriven bits, the chunks tile
the wire's bits in ascending order. -/
def WalkOK (rmap : RMap) (w : WireRef) (width : Nat) : Nat → List RChunk → Prop
  | p, [] => p = width
  | p, RChunk.driven id off cw :: rest =>
    p < width ∧ 1 ≤ cw ∧ p + cw ≤ width ∧
    (∀ k, k < cw → rmapLookup rmap (SigBit.wb w (p + k)) = some (id, off + k)) ∧
    (p + cw = width ∨ rmapLookup rmap (SigBit.wb w (p + cw)) ≠ some (id, off + cw)) ∧
    WalkOK rmap w width (p + cw) rest
  | p, RChunk.hole _ :: rest =>
    p < width ∧ rmapLookup rmap (SigBit.wb w p) = none ∧ WalkOK rmap w width (p + 1) rest

def holeIds : List RChunk → List String
  | [] => []
  | RChunk.hole u :: rest => u :: holeIds rest
  | RChunk.driven _ _ _ :: rest => holeIds rest

/-- Sentinel discipline of a walk: with a sentinel already allocated every hole
reuses it and nothing changes; with none, either no hole occurs, or one sentinel
is allocated, flagged, and used for every hole. -/
def WalkHoles (unconn : String) (mku : Bool) (out : WalkOut) : Prop :=
  (unconn ≠ "" → out.unconn = unconn ∧ out.makeUnconn = mku ∧
    ∀ u ∈ holeIds out.chunks, u = unconn) ∧
  (unconn = "" → (holeIds out.chunks = [] ∧ out.unconn = "" ∧ out.makeUnconn = mku) ∨
    (out.unconn ≠ "" ∧ out.makeUnconn = true ∧ ∀ u ∈ holeIds out.chunks, u = out.unconn))

/-- A bit is covered by some module-level connection's left-hand side. -/
def connCovered (conns : List (SigSpec × SigSpec)) (b : SigBit) : Prop :=
  ∃ pc, pc ∈ conns ∧ b ∈ sigBits pc.1

/-! ## Concrete inputs for witnesses and scenario claims -/

/-- LSB-first constant encoding of a small number (input-building helper). -/
def natConstF : Nat → Nat → Const
  | 0, _ => []
  | fuel + 1, n =>
    if n == 0 then [] else (if n % 2 == 1 then RState.s1 else RState.s0) :: natConstF fuel (n / 2)

def natConst (n : Nat) : Const := natConstF 32 n

def dEmpty : Design := ⟨[], none⟩

def designTop1 : Design := ⟨[⟨"\\top", [], [], [], false⟩], none⟩

def mst0 : MState := initMState gInit "\\top"

def cellShl : Cell :=
  ⟨"\\shl0", "$shl",
   [(aSignedKey, natConst 0), (bSignedKey, natConst 0), (aWidthKey, natConst 8),
    (bWidthKey, natConst 32), (yWidthKey, natConst 8)],
   [(aKey, [SigChunk.slice ⟨"\\a", 8⟩ 0 8]), (bKey, [SigChunk.slice ⟨"\\b", 32⟩ 0 32]),
    (yKey, [SigChunk.slice ⟨"\\y", 8⟩ 0 8])]⟩

def cellAdd : Cell :=
  ⟨"\\add0", "$add",
   [(aSignedKey, natConst 1), (bSignedKey, natConst 1), (aWidthKey, natConst 8),
    (bWidthKey, natConst 8), (yWidthKey, natConst 8)],
   [(aKey, [SigChunk.slice ⟨"\\a", 8⟩ 0 8]), (bKey, [SigChunk.slice ⟨"\\b", 8⟩ 0 8]),
    (yKey, [SigChunk.slice ⟨"\\y", 8⟩ 0 8])]⟩

def cellMux : Cell :=
  ⟨"\\m0", "$mux",
   [(widthKey, natConst 1)],
   [(aKey, [SigChunk.slice ⟨"\\x", 1⟩ 0 1]), (bKey, [SigChunk.slice ⟨"\\y", 1⟩ 0 1]),
    (sKey, [SigChunk.slice ⟨"\\s", 1⟩ 0 1]), (yKey, [SigChunk.slice ⟨"\\yo", 1⟩ 0 1])]⟩

def cellMemBad : Cell :=
  ⟨"\\mem0", "$mem",
   [(abitsKey, natConst 1), (widthKey, natConst 1), (sizeKey, natConst 2),
    (rdPortsKey, natConst 1), (wrPortsKey, natConst 0), (initKey, [RState.sx]),
    (offsetKey, natConst 0), (rdClkEnKey, [RState.s1]), (wrClkEnKey, []), (wrClkPolKey, [])],
   [(rdDataKey, [SigChunk.slice ⟨"\\rd", 1⟩ 0 1]), (rdAddrKey, [SigChunk.slice ⟨"\\ra", 1⟩ 0 1])]⟩

def cellInstMissing : Cell := ⟨"\\U0", "foo_mod", [], []⟩

def modInstMissing : ModuleR := ⟨"\\m", [], [cellInstMissing], [], false⟩

def wWitness : Wire := ⟨"\\w", 3, 0, false, false, none⟩

def rmapWitness : RMap :=
  [(SigBit.wb ⟨"\\w", 3⟩ 0, ("x", 0)), (SigBit.wb ⟨"\\w", 3⟩ 1, ("x", 1))]

def mstWitness : MState := { initMState gInit "\\mw" with rmap := rmapWitness }

/-! # Theorems -/

/-! ## Decimal printing -/

theorem decVal_append_digit (l : List Char) (c : Char) :
    decVal (l ++ [c]) = 10 * decVal l + decDigitVal c := by
  simp [decVal, List.foldl_append]

theorem decDigitVal_hexDigitChar (v : Nat) (h : v < 10) :
    decDigitVal (hexDigitChar v) = v := by
  interval_cases v <;> decide

theorem decVal_decDigitsF (fuel : Nat) :
    ∀ n, n < 10 ^ fuel → decVal (decDigitsF fuel n) = n := by
  induction fuel with
  | zero =>
    intro n h
    simp [pow_zero] at h
    simp [h, decDigitsF, decVal]
  | succ f ih =>
    intro n h
    by_cases h10 : n < 10
    · simp [decDigitsF, h10, decVal, decDigitVal_hexDigitChar n h10]
    · have hdiv : n / 10 < 10 ^ f := by
        rw [Nat.div_lt_iff_lt_mul (by omega)]
        calc n < 10 ^ (f + 1) := h
        _ = 10 ^ f * 10 := by ring
      simp only [decDigitsF, h10, if_false, decVal_append_digit]
      rw [show decVal (decDigitsF f (n / 10)) = n / 10 from ih _ hdiv,
        decDigitVal_hexDigitChar (n % 10) (Nat.mod_lt _ (by omega))]
      omega

theorem lt_ten_pow_digitFuel (n : Nat) : n < 10 ^ digitFuel n := by
  unfold digitFuel
  by_cases h : n < 100000000
  · rw [if_pos h]
    calc n < 100000000 := h
    _ ≤ 10 ^ 8 := by norm_num
  · rw [if_neg h]
    calc n < 10 ^ n := Nat.lt_pow_self (by omega) n
    _ ≤ 10 ^ (n + 1) := Nat.pow_le_pow_right (by omega) (by omega)

theorem natToDec_val (n : Nat) : decVal (decDigitsF (digitFuel n) n) = n :=
  decVal_decDigitsF _ n (lt_ten_pow_digitFuel n)

theorem natToDec_injective : ∀ a b : Nat, natToDec a = natToDec b → a = b := by
  intro a b h
  have hd : decDigitsF (digitFuel a) a = decDigitsF (digitFuel b) b := congrArg String.data h
  have := natToDec_val a
  rw [hd, natToDec_val b] at this
  omega

/-! ## String facts -/

theorem string_data_append (a b : String) : (a ++ b).data = a.data ++ b.data := by
  cases a
  cases b
  rfl

theorem string_ext {a b : String} (h : a.data = b.data) : a = b := by
  cases a
  cases b
  exact congrArg String.mk h

theorem string_length_append (a b : String) : (a ++ b).length = a.length + b.length := by
  show (a ++ b).data.length = a.data.length + b.data.length
  rw [string_data_append]
  exact List.length_append _ _

theorem uscores_len (k : Nat) : (uscores k).length = k := by
  simp [uscores, String.length]

theorem append_uscores_succ (s : String) (k : Nat) :
    s ++ uscores (k + 1) = (s ++ "_") ++ uscores k := by
  apply string_ext
  simp [string_data_append, uscores]
  rfl

theorem append_uscores_zero (s : String) : s ++ uscores 0 = s := by
  apply string_ext
  simp [string_data_append, uscores]

/-! ## Freshness of allocated identifiers -/

theorem memB_iff (s : String) (l : List String) : memB s l = true ↔ s ∈ l := by
  induction l with
  | nil => simp [memB]
  | cons x rest ih =>
    rw [memB]
    by_cases hx : x = s
    · simp [hx]
    · simp only [if_neg hx, ih, List.mem_cons]
      constructor
      · intro h
        exact Or.inr h
      · rintro (h | h)
        · exact absurd h.symm hx
        · exact h

theorem avoid_candidates_inj (s : String) :
    Function.Injective (fun k => s ++ uscores k) := by
  intro a b h
  have := congrArg String.length h
  simp only [string_length_append, uscores_len] at this
  omega

theorem avoid_ex (used : List String) (s : String) :
    ∃ k, k ≤ used.length ∧ (s ++ uscores k) ∉ used := by
  by_contra h
  push_neg at h
  have hsub : (Finset.range (used.length + 1)).image (fun k => s ++ uscores k) ⊆
      used.toFinset := by
    intro x hx
    rcases Finset.mem_image.mp hx with ⟨k, hk, rfl⟩
    exact List.mem_toFinset.mpr (h k (Nat.lt_succ_iff.mp (Finset.mem_range.mp hk)))
  have hc := Finset.card_le_card hsub
  rw [Finset.card_image_of_injective _ (avoid_candidates_inj s), Finset.card_range] at hc
  have := used.toFinset_card_le
  omega

theorem avoidLoop_spec (used : List String) :
    ∀ fuel s, (∃ k, k < fuel ∧ (s ++ uscores k) ∉ used) → avoidLoop used s fuel ∉ used := by
  intro fuel
  induction fuel with
  | zero =>
    rintro s ⟨k, hk, _⟩
    omega
  | succ f ih =>
    rintro s ⟨k, hk, hfree⟩
    by_cases hs : s ∈ used
    · have hk0 : k ≠ 0 := by
        intro h0
        rw [h0, append_uscores_zero] at hfree
        exact hfree hs
      rw [avoidLoop, if_pos ((memB_iff s used).mpr hs)]
      apply ih
      refine ⟨k - 1, by omega, ?_⟩
      rw [← append_uscores_succ, show k - 1 + 1 = k from by omega]
      exact hfree
    · rw [avoidLoop, if_neg (fun hmem => hs ((memB_iff s used).mp hmem))]
      exact hs

theorem avoidLoop_fresh (used : List String) (s : String) :
    avoidLoop used s (used.length + 1) ∉ used := by
  rcases avoid_ex used s with ⟨k, hk, hfree⟩
  exact avoidLoop_spec used _ s ⟨k, by omega, hfree⟩

theorem allocName_fresh (g : GState) (id : String) : allocName g id ∉ g.used :=
  avoidLoop_fresh _ _

theorem underscore_nat_inj :
    Function.Injective (fun a => "_" ++ natToDec a) := by
  intro a b h
  apply natToDec_injective
  apply string_ext
  have := congrArg String.data h
  simp only [string_data_append] at this
  exact List.append_cancel_left this

theorem nextId_ex (used : List String) (a : Nat) :
    ∃ k, k ≤ used.length ∧ ("_" ++ natToDec (a + k)) ∉ used := by
  by_contra h
  push_neg at h
  have hsub : (Finset.range (used.length + 1)).image (fun k => "_" ++ natToDec (a + k)) ⊆
      used.toFinset := by
    intro x hx
    rcases Finset.mem_image.mp hx with ⟨k, hk, rfl⟩
    exact List.mem_toFinset.mpr (h k (Nat.lt_succ_iff.mp (Finset.mem_range.mp hk)))
  have hc := Finset.card_le_card hsub
  have hinj : Function.Injective (fun k : Nat => "_" ++ natToDec (a + k)) := by
    intro x y hxy
    have := underscore_nat_inj hxy
    omega
  rw [Finset.card_image_of_injective _ hinj, Finset.card_range] at hc
  have := used.toFinset_card_le
  omega

theorem nextIdLoop_spec (used : List String) :
    ∀ fuel a, (∃ k, k < fuel ∧ ("_" ++ natToDec (a + k)) ∉ used) →
      (nextIdLoop used a fuel).1 ∉ used := by
  intro fuel
  induction fuel with
  | zero =>
    rintro a ⟨k, hk, _⟩
    omega
  | succ f ih =>
    rintro a ⟨k, hk, hfree⟩
    by_cases hs : ("_" ++ natToDec a) ∈ used
    · have hk0 : k ≠ 0 := by
        intro h0
        rw [h0] at hfree
        simp at hfree
        exact hfree hs
      rw [nextIdLoop, if_pos ((memB_iff _ used).mpr hs)]
      apply ih
      refine ⟨k - 1, by omega, ?_⟩
      rw [show a + 1 + (k - 1) = a + k from by omega]
      exact hfree
    · rw [nextIdLoop, if_neg (fun hmem => hs ((memB_iff _ used).mp hmem))]
      exact hs

theorem nextId_fresh (g : GState) : (nextId g).1 ∉ g.used := by
  rcases nextId_ex g.used g.autoid with ⟨k, hk, hfree⟩
  exact nextIdLoop_spec g.used _ g.autoid ⟨k, by omega, hfree⟩

theorem subset_insertUsed (s : String) (l : List String) : l ⊆ insertUsed s l := by
  unfold insertUsed
  by_cases h : memB s l
  · rw [if_pos h]
    exact List.Subset.refl _
  · rw [if_neg h]
    exact List.subset_cons_self _ _

theorem mem_insertUsed_self (s : String) (l : List String) : s ∈ insertUsed s l := by
  unfold insertUsed
  by_cases h : memB s l
  · rw [if_pos h]
    exact (memB_iff s l).mp h
  · rw [if_neg h]
    exact List.mem_cons_self _ _

theorem mem_insertUsed_of_mem {x : String} (s : String) (l : List String) (h : x ∈ l) :
    x ∈ insertUsed s l :=
  subset_insertUsed s l h

/-! ## The allocator state machine -/

theorem lookupNC_cons (p : String × String) (nc : List (String × String)) (k : String) :
    lookupNC (p :: nc) k = if p.1 = k then some p.2 else lookupNC nc k := rfl

theorem makeId_hit {g : GState} {id out : String}
    (h : lookupNC g.namecache id = some out) : makeId g id = (out, g) := by
  simp [makeId, h]

theorem makeId_miss {g : GState} {id : String}
    (h : lookupNC g.namecache id = none) :
    makeId g id = (allocName g id,
      ⟨(id, allocName g id) :: g.namecache, insertUsed (allocName g id) g.used, g.autoid⟩) := by
  simp [makeId, h]

theorem nextId_eq (g : GState) :
    nextId g = ((nextIdLoop g.used g.autoid (g.used.length + 1)).1,
      ⟨g.namecache, insertUsed (nextIdLoop g.used g.autoid (g.used.length + 1)).1 g.used,
        (nextIdLoop g.used g.autoid (g.used.length + 1)).2⟩) := rfl

theorem nstep_used_mono (g : GState) (op : NOp) : g.used ⊆ (nstep g op).2.used := by
  cases op with
  | mk id =>
    cases h : lookupNC g.namecache id with
    | some out => simp [nstep, makeId_hit h]
    | none =>
      rw [nstep, makeId_miss h]
      exact subset_insertUsed _ _
  | fresh =>
    rw [nstep, nextId_eq]
    exact subset_insertUsed _ _

theorem nrun_used_mono (ops : List NOp) : ∀ g : GState, g.used ⊆ (nrun g ops).used := by
  induction ops with
  | nil => intro g; exact List.Subset.refl _
  | cons op rest ih =>
    intro g
    exact (nstep_used_mono g op).trans (ih _)

theorem nstep_lookup_persist (g : GState) (op : NOp) (k v : String)
    (h : lookupNC g.namecache k = some v) :
    lookupNC (nstep g op).2.namecache k = some v := by
  cases op with
  | mk id =>
    cases hl : lookupNC g.namecache id with
    | some out => rw [nstep, makeId_hit hl]; exact h
    | none =>
      rw [nstep, makeId_miss hl]
      show lookupNC ((id, allocName g id) :: g.namecache) k = some v
      rw [lookupNC_cons]
      by_cases hik : id = k
      · rw [← hik] at h
        rw [hl] at h
        exact absurd h (by simp)
      · rw [if_neg hik]
        exact h
  | fresh => rw [nstep, nextId_eq]; exact h

theorem nrun_lookup_persist (ops : List NOp) :
    ∀ (g : GState) (k v : String), lookupNC g.namecache k = some v →
      lookupNC (nrun g ops).namecache k = some v := by
  induction ops with
  | nil => intro g k v h; exact h
  | cons op rest ih =>
    intro g k v h
    exact ih _ k v (nstep_lookup_persist g op k v h)

theorem nstep_out_in_used (g : GState) (op : NOp) (hc : CacheSub g) :
    (nstep g op).1 ∈ (nstep g op).2.used := by
  cases op with
  | mk id =>
    cases hl : lookupNC g.namecache id with
    | some out =>
      rw [nstep, makeId_hit hl]
      exact hc id out hl
    | none =>
      rw [nstep, makeId_miss hl]
      exact mem_insertUsed_self _ _
  | fresh =>
    rw [nstep, nextId_eq]
    exact mem_insertUsed_self _ _

theorem nstep_cacheSub (g : GState) (op : NOp) (hc : CacheSub g) :
    CacheSub (nstep g op).2 := by
  cases op with
  | mk id =>
    cases hl : lookupNC g.namecache id with
    | some out => rw [nstep, makeId_hit hl]; exact hc
    | none =>
      rw [nstep, makeId_miss hl]
      intro k v h
      rw [show (⟨(id, allocName g id) :: g.namecache, insertUsed (allocName g id) g.used,
            g.autoid⟩ : GState).namecache = (id, allocName g id) :: g.namecache from rfl,
        lookupNC_cons] at h
      by_cases hik : id = k
      · rw [if_pos hik] at h
        rw [← Option.some_inj.mp h]
        exact mem_insertUsed_self _ _
      · rw [if_neg hik] at h
        exact mem_insertUsed_of_mem _ _ (hc k v h)
  | fresh =>
    rw [nstep, nextId_eq]
    intro k v h
    exact mem_insertUsed_of_mem _ _ (hc k v h)

theorem nstep_cacheInj (g : GState) (op : NOp) (hi : NInv g) :
    CacheInj (nstep g op).2 := by
  cases op with
  | mk id =>
    cases hl : lookupNC g.namecache id with
    | some out => rw [nstep, makeId_hit hl]; exact hi.2
    | none =>
      rw [nstep, makeId_miss hl]
      intro k1 k2 v h1 h2
      rw [show (⟨(id, allocName g id) :: g.namecache, insertUsed (allocName g id) g.used,
            g.autoid⟩ : GState).namecache = (id, allocName g id) :: g.namecache from rfl,
        lookupNC_cons] at h1 h2
      by_cases h1k : id = k1 <;> by_cases h2k : id = k2
      · rw [← h1k, ← h2k]
      · rw [if_pos h1k] at h1
        rw [if_neg h2k] at h2
        have hv : v = allocName g id := (Option.some_inj.mp h1).symm
        rw [hv] at h2
        exact absurd (hi.1 k2 _ h2) (allocName_fresh g id)
      · rw [if_neg h1k] at h1
        rw [if_pos h2k] at h2
        have hv : v = allocName g id := (Option.some_inj.mp h2).symm
        rw [hv] at h1
        exact absurd (hi.1 k1 _ h1) (allocName_fresh g id)
      · rw [if_neg h1k] at h1
        rw [if_neg h2k] at h2
        exact hi.2 k1 k2 v h1 h2
  | fresh =>
    rw [nstep, nextId_eq]
    exact hi.2

theorem nstep_inv (g : GState) (op : NOp) (hi : NInv g) : NInv (nstep g op).2 :=
  ⟨nstep_cacheSub g op hi.1, nstep_cacheInj g op hi⟩

theorem nrun_inv (ops : List NOp) : ∀ g : GState, NInv g → NInv (nrun g ops) := by
  induction ops with
  | nil => intro g h; exact h
  | cons op rest ih => intro g h; exact ih _ (nstep_inv g op h)

theorem gInit_inv : NInv gInit := by
  constructor
  · intro k v h
    exact absurd h (by simp [gInit, lookupNC])
  · intro k1 k2 v h1 _
    exact absurd h1 (by simp [gInit, lookupNC])

theorem nstep_notCacheVal (g : GState) (op : NOp) (s : String)
    (hs : s ∈ g.used) (h : NotCacheVal g s) : NotCacheVal (nstep g op).2 s := by
  cases op with
  | mk id =>
    cases hl : lookupNC g.namecache id with
    | some out => rw [nstep, makeId_hit hl]; exact h
    | none =>
      rw [nstep, makeId_miss hl]
      intro k v hkv
      rw [show (⟨(id, allocName g id) :: g.namecache, insertUsed (allocName g id) g.used,
            g.autoid⟩ : GState).namecache = (id, allocName g id) :: g.namecache from rfl,
        lookupNC_cons] at hkv
      by_cases hik : id = k
      · rw [if_pos hik] at hkv
        rw [← Option.some_inj.mp hkv]
        intro heq
        rw [← heq] at hs
        exact allocName_fresh g id hs
      · rw [if_neg hik] at hkv
        exact h k v hkv
  | fresh =>
    rw [nstep, nextId_eq]
    exact h

theorem nrun_notCacheVal (ops : List NOp) :
    ∀ (g : GState) (s : String), s ∈ g.used → NotCacheVal g s →
      NotCacheVal (nrun g ops) s ∧ s ∈ (nrun g ops).used := by
  induction ops with
  | nil => intro g s hs h; exact ⟨h, hs⟩
  | cons op rest ih =>
    intro g s hs h
    exact ih _ s (nstep_used_mono g op hs) (nstep_notCacheVal g op s hs h)

/-- The cache binds id to the returned output after a make_id step. -/
theorem makeId_binds (g : GState) (x : String) :
    lookupNC (makeId g x).2.namecache x = some (makeId g x).1 := by
  cases hl : lookupNC g.namecache x with
  | some out => rw [makeId_hit hl]; exact hl
  | none =>
    rw [makeId_miss hl]
    show lookupNC ((x, allocName g x) :: g.namecache) x = some (allocName g x)
    rw [lookupNC_cons, if_pos rfl]

/-- Claim C7: within one run, the identifier sanitizer is stable and injective -
once a source id is mapped, every later sanitize call returns the same output id;
no two distinct source ids (nor any fresh anonymous id) map to the same output id.
The claim is quantified over all interleavings of sanitize and fresh operations. -/
theorem sanitizer_stable_and_injective (pre mid : List NOp) (a b : NOp) :
    (∀ x, a = NOp.mk x → b = NOp.mk x → runOut1 pre a = runOut2 pre a mid b) ∧
    (∀ x y, a = NOp.mk x → b = NOp.mk y → x ≠ y → runOut1 pre a ≠ runOut2 pre a mid b) ∧
    (a = NOp.fresh → b = NOp.fresh → runOut1 pre a ≠ runOut2 pre a mid b) ∧
    (∀ x, a = NOp.mk x → b = NOp.fresh → runOut1 pre a ≠ runOut2 pre a mid b) ∧
    (∀ y, a = NOp.fresh → b = NOp.mk y → runOut1 pre a ≠ runOut2 pre a mid b) := by
  have hInvA : NInv (nrun gInit pre) := nrun_inv pre gInit gInit_inv
  have hInvB : ∀ c : NOp, NInv (runMidState pre c mid) := fun c =>
    nrun_inv mid _ (nstep_inv _ c hInvA)
  have hO1used : ∀ c : NOp, runOut1 pre c ∈ (runMidState pre c mid).used := fun c =>
    nrun_used_mono mid _ (nstep_out_in_used _ c hInvA.1)
  refine ⟨?_, ?_, ?_, ?_, ?_⟩
  · intro x ha hb
    subst ha
    subst hb
    have hbind : lookupNC (runMidState pre (NOp.mk x) mid).namecache x =
        some (runOut1 pre (NOp.mk x)) :=
      nrun_lookup_persist mid _ x _ (makeId_binds (nrun gInit pre) x)
    show runOut1 pre (NOp.mk x) = (makeId (runMidState pre (NOp.mk x) mid) x).1
    rw [makeId_hit hbind]
  · intro x y ha hb hxy
    subst ha
    subst hb
    have hbind : lookupNC (runMidState pre (NOp.mk x) mid).namecache x =
        some (runOut1 pre (NOp.mk x)) :=
      nrun_lookup_persist mid _ x _ (makeId_binds (nrun gInit pre) x)
    cases hly : lookupNC (runMidState pre (NOp.mk x) mid).namecache y with
    | some out =>
      have ho2 : runOut2 pre (NOp.mk x) mid (NOp.mk y) = out := by
        show (makeId (runMidState pre (NOp.mk x) mid) y).1 = out
        rw [makeId_hit hly]
      rw [ho2]
      intro heq
      rw [← heq] at hly
      exact hxy ((hInvB (NOp.mk x)).2 x y _ hbind hly)
    | none =>
      have ho2 : runOut2 pre (NOp.mk x) mid (NOp.mk y) =
          allocName (runMidState pre (NOp.mk x) mid) y := by
        show (makeId (runMidState pre (NOp.mk x) mid) y).1 = _
        rw [makeId_miss hly]
      rw [ho2]
      intro heq
      have hm := hO1used (NOp.mk x)
      rw [heq] at hm
      exact allocName_fresh _ y hm
  · intro ha hb
    subst ha
    subst hb
    show runOut1 pre NOp.fresh ≠ (nextId (runMidState pre NOp.fresh mid)).1
    intro heq
    have hm := hO1used NOp.fresh
    rw [heq] at hm
    exact nextId_fresh _ hm
  · intro x ha hb
    subst ha
    subst hb
    show runOut1 pre (NOp.mk x) ≠ (nextId (runMidState pre (NOp.mk x) mid)).1
    intro heq
    have hm := hO1used (NOp.mk x)
    rw [heq] at hm
    exact nextId_fresh _ hm
  · intro y ha hb
    subst ha
    subst hb
    have h1 : runOut1 pre NOp.fresh ∈ (nstep (nrun gInit pre) NOp.fresh).2.used :=
      nstep_out_in_used _ NOp.fresh hInvA.1
    have hnotv : NotCacheVal (nstep (nrun gInit pre) NOp.fresh).2 (runOut1 pre NOp.fresh) := by
      intro k v hkv
      intro hveq
      have hvu : v ∈ (nrun gInit pre).used := hInvA.1 k v hkv
      rw [hveq] at hvu
      exact nextId_fresh (nrun gInit pre) hvu
    have hBoth := nrun_notCacheVal mid _ _ h1 hnotv
    cases hly : lookupNC (runMidState pre NOp.fresh mid).namecache y with
    | some out =>
      have ho2 : runOut2 pre NOp.fresh mid (NOp.mk y) = out := by
        show (makeId (runMidState pre NOp.fresh mid) y).1 = out
        rw [makeId_hit hly]
      rw [ho2]
      intro heq
      exact hBoth.1 y out hly heq.symm
    | none =>
      have ho2 : runOut2 pre NOp.fresh mid (NOp.mk y) =
          allocName (runMidState pre NOp.fresh mid) y := by
        show (makeId (runMidState pre NOp.fresh mid) y).1 = _
        rw [makeId_miss hly]
      rw [ho2]
      intro heq
      have hm := hBoth.2
      rw [heq] at hm
      exact allocName_fresh _ y hm

/-- Witness for the sanitizer claim at a concrete run: sanitizing the id a and then
minting a fresh id give distinct outputs, and the sanitized output is a. -/
theorem sanitizer_stable_and_injective_witness :
    runOut1 [] (NOp.mk "\\a") = "a" ∧
    runOut1 [] (NOp.mk "\\a") ≠ runOut2 [] (NOp.mk "\\a") [NOp.fresh] NOp.fresh :=
  ⟨by decide,
   (sanitizer_stable_and_injective [] [NOp.fresh] (NOp.mk "\\a") NOp.fresh).2.2.2.1 "\\a" rfl rfl⟩

/-! ## Literal chunk printing (claim C6) -/

theorem bitVal_le (b : RState) : bitVal b ≤ 1 := by cases b <;> decide

theorem bitVal_zeroize (b : RState) : bitVal (zeroizeBit b) = bitVal b := by cases b <;> decide

theorem hexCharVal_hexDigitChar (v : Nat) (h : v < 16) : hexCharVal (hexDigitChar v) = v := by
  interval_cases v <;> decide

theorem parseHex_append_digit (l : List Char) (c : Char) :
    parseHex (l ++ [c]) = 16 * parseHex l + hexCharVal c := by
  simp [parseHex, List.foldl_append]

theorem bitsVal_lt (l : List RState) : bitsVal l < 2 ^ l.length := by
  induction l with
  | nil => simp [bitsVal]
  | cons b rest ih =>
    have hb := bitVal_le b
    simp only [bitsVal, List.length_cons, pow_succ]
    omega

theorem bitsVal_replicate_zero (k : Nat) : bitsVal (List.replicate k RState.s0) = 0 := by
  induction k with
  | zero => rfl
  | succ m ih => simp [List.replicate, bitsVal, ih, bitVal]

theorem bitsVal_append_zeros (l : List RState) (k : Nat) :
    bitsVal (l ++ List.replicate k RState.s0) = bitsVal l := by
  induction l with
  | nil => simp [bitsVal, bitsVal_replicate_zero]
  | cons b rest ih => simp [bitsVal, ih]

theorem nibble_lt (b0 b1 b2 b3 : RState) :
    bitVal b0 + 2 * bitVal b1 + 4 * bitVal b2 + 8 * bitVal b3 < 16 := by
  have h0 := bitVal_le b0
  have h1 := bitVal_le b1
  have h2 := bitVal_le b2
  have h3 := bitVal_le b3
  omega

theorem parse_hexCharsLSB :
    ∀ (n : Nat) (l : List RState), l.length ≤ n → 4 ∣ l.length →
      parseHex (hexCharsLSB l).reverse = bitsVal l := by
  intro n
  induction n with
  | zero =>
    intro l hl _
    have : l = [] := List.length_eq_zero.mp (by omega)
    subst this
    rfl
  | succ m ih =>
    intro l hl hdvd
    cases l with
    | nil => rfl
    | cons b0 t0 =>
      cases t0 with
      | nil => exact absurd hdvd (by simp)
      | cons b1 t1 =>
        cases t1 with
        | nil => exact absurd hdvd (by simp; omega)
        | cons b2 t2 =>
          cases t2 with
          | nil => exact absurd hdvd (by simp; omega)
          | cons b3 rest =>
            have hrest : 4 ∣ rest.length := by
              simp only [List.length_cons] at hdvd
              omega
            have hlen : rest.length ≤ m := by
              simp only [List.length_cons] at hl
              omega
            rw [show hexCharsLSB (b0 :: b1 :: b2 :: b3 :: rest) =
                hexDigitChar (bitVal b0 + 2 * bitVal b1 + 4 * bitVal b2 + 8 * bitVal b3) ::
                  hexCharsLSB rest from rfl,
              List.reverse_cons, parseHex_append_digit, ih rest hlen hrest,
              hexCharVal_hexDigitChar _ (nibble_lt b0 b1 b2 b3)]
            show 16 * bitsVal rest + _ = bitsVal (b0 :: b1 :: b2 :: b3 :: rest)
            simp only [bitsVal]
            ring

theorem padTo4_len_dvd (l : List RState) : 4 ∣ (padTo4 l).length := by
  simp only [padTo4, List.length_append, List.length_replicate]
  omega

theorem hexCharsLSB_mem_shape :
    ∀ (n : Nat) (l : List RState) (c : Char), l.length ≤ n → c ∈ hexCharsLSB l →
      ∃ v, v < 16 ∧ c = hexDigitChar v := by
  intro n
  induction n with
  | zero =>
    intro l c hl hc
    have : l = [] := List.length_eq_zero.mp (by omega)
    subst this
    exact absurd hc (by simp [hexCharsLSB])
  | succ m ih =>
    intro l c hl hc
    cases l with
    | nil => exact absurd hc (by simp [hexCharsLSB])
    | cons b0 t0 =>
      cases t0 with
      | nil =>
        rw [show hexCharsLSB [b0] = [hexDigitChar (bitVal b0 + 2 * bitVal RState.s0 +
            4 * bitVal RState.s0 + 8 * bitVal RState.s0)] from rfl] at hc
        rcases List.mem_singleton.mp hc with rfl
        exact ⟨_, nibble_lt b0 RState.s0 RState.s0 RState.s0, rfl⟩
      | cons b1 t1 =>
        cases t1 with
        | nil =>
          rw [show hexCharsLSB [b0, b1] = [hexDigitChar (bitVal b0 + 2 * bitVal b1 +
              4 * bitVal RState.s0 + 8 * bitVal RState.s0)] from rfl] at hc
          rcases List.mem_singleton.mp hc with rfl
          exact ⟨_, nibble_lt b0 b1 RState.s0 RState.s0, rfl⟩
        | cons b2 t2 =>
          cases t2 with
          | nil =>
            rw [show hexCharsLSB [b0, b1, b2] = [hexDigitChar (bitVal b0 + 2 * bitVal b1 +
                4 * bitVal b2 + 8 * bitVal RState.s0)] from rfl] at hc
            rcases List.mem_singleton.mp hc with rfl
            exact ⟨_, nibble_lt b0 b1 b2 RState.s0, rfl⟩
          | cons b3 rest =>
            rw [show hexCharsLSB (b0 :: b1 :: b2 :: b3 :: rest) =
                hexDigitChar (bitVal b0 + 2 * bitVal b1 + 4 * bitVal b2 + 8 * bitVal b3) ::
                  hexCharsLSB rest from rfl] at hc
            rcases List.mem_cons.mp hc with rfl | hc2
            · exact ⟨_, nibble_lt b0 b1 b2 b3, rfl⟩
            · exact ih rest c (by simp only [List.length_cons] at hl; omega) hc2

theorem lowerHexDigits_contains_hexDigitChar (v : Nat) (h : v < 16) :
    lowerHexDigits.contains (hexDigitChar v) = true := by
  interval_cases v <;> decide

theorem map_zeroize_padTo4 (l : List RState) :
    padTo4 (l.map zeroizeBit) = (padTo4 l).map zeroizeBit := by
  simp only [padTo4, List.map_append, List.length_map, List.map_replicate]
  rfl

theorem hexCharsLSB_map_zeroize :
    ∀ (n : Nat) (l : List RState), l.length ≤ n →
      hexCharsLSB (l.map zeroizeBit) = hexCharsLSB l := by
  intro n
  induction n with
  | zero =>
    intro l hl
    have : l = [] := List.length_eq_zero.mp (by omega)
    subst this
    rfl
  | succ m ih =>
    intro l hl
    cases l with
    | nil => rfl
    | cons b0 t0 =>
      cases t0 with
      | nil => simp [hexCharsLSB, bitVal_zeroize]
      | cons b1 t1 =>
        cases t1 with
        | nil => simp [hexCharsLSB, bitVal_zeroize]
        | cons b2 t2 =>
          cases t2 with
          | nil => simp [hexCharsLSB, bitVal_zeroize]
          | cons b3 rest =>
            show hexDigitChar _ :: hexCharsLSB (rest.map zeroizeBit) = hexDigitChar _ :: _
            rw [ih rest (by simp only [List.length_cons] at hl; omega)]
            simp [bitVal_zeroize]

/-- Claim C6: for every literal chunk of width W encoding value V the printer emits
UInt<W>("h...") with lowercase hex digits, the bit vector zero-padded on the high
side to a multiple of 4 bits, non-0/1 bits treated as 0, and the digits re-parsed
equal to V modulo 2^W. -/
theorem literal_chunk_roundtrip (g : GState) (data : List RState) :
    chunkExpr g (SigChunk.lit data) = (litExpr data, g) ∧
    litExpr data =
      "UInt<" ++ natToDec data.length ++ ">(\"h" ++ String.mk (hexChars data) ++ "\")" ∧
    (padTo4 data).length % 4 = 0 ∧
    (hexChars data).all (fun c => lowerHexDigits.contains c) = true ∧
    hexChars data = hexChars (data.map zeroizeBit) ∧
    parseHex (hexChars data) = bitsVal data % 2 ^ data.length := by
  refine ⟨rfl, rfl, ?_, ?_, ?_, ?_⟩
  · have := padTo4_len_dvd data
    omega
  · rw [List.all_eq_true]
    intro c hc
    have hc2 : c ∈ hexCharsLSB (padTo4 data) := List.mem_reverse.mp hc
    rcases hexCharsLSB_mem_shape (padTo4 data).length _ c (le_refl _) hc2 with ⟨v, hv, rfl⟩
    exact lowerHexDigits_contains_hexDigitChar v hv
  · show (hexCharsLSB (padTo4 data)).reverse = (hexCharsLSB (padTo4 (data.map zeroizeBit))).reverse
    rw [map_zeroize_padTo4, hexCharsLSB_map_zeroize (padTo4 data).length _ (le_refl _)]
  · show parseHex (hexCharsLSB (padTo4 data)).reverse = _
    rw [parse_hexCharsLSB (padTo4 data).length _ (le_refl _) (padTo4_len_dvd data)]
    show bitsVal (data ++ List.replicate ((4 - data.length % 4) % 4) RState.s0) = _
    rw [bitsVal_append_zeros, Nat.mod_eq_of_lt (bitsVal_lt data)]

/-! ## Reverse wire map (claim C10) -/

theorem rmapLookup_cons (p : SigBit × (String × Nat)) (r : RMap) (b : SigBit) :
    rmapLookup (p :: r) b = if p.1 = b then some p.2 else rmapLookup r b := rfl

theorem rmapLookup_registerAux (id : String) :
    ∀ (bs : List SigBit) (r : RMap) (i : Nat) (b : SigBit),
      rmapLookup (registerAux id r i bs) b =
        match regLookup id i bs b with
        | some v => some v
        | none => rmapLookup r b := by
  intro bs
  induction bs with
  | nil => intro r i b; rfl
  | cons x rest ih =>
    intro r i b
    rw [registerAux, ih]
    show _ = (match regLookup id i (x :: rest) b with
      | some v => some v
      | none => rmapLookup r b)
    rw [show regLookup id i (x :: rest) b =
      (match regLookup id (i + 1) rest b with
       | some v => some v
       | none => if b = x then some (id, i) else none) from rfl]
    cases hr : regLookup id (i + 1) rest b with
    | some v => rfl
    | none =>
      show rmapLookup ((x, (id, i)) :: r) b =
        (match (if b = x then some (id, i) else none) with
         | some v => some v
         | none => rmapLookup r b)
      rw [rmapLookup_cons]
      by_cases hbx : b = x
      · rw [if_pos hbx.symm, if_pos hbx]
      · rw [if_neg (fun h => hbx h.symm), if_neg hbx]

theorem regLookup_none_iff (id : String) :
    ∀ (bs : List SigBit) (i : Nat) (b : SigBit), regLookup id i bs b = none ↔ b ∉ bs := by
  intro bs
  induction bs with
  | nil => intro i b; simp [regLookup]
  | cons x rest ih =>
    intro i b
    rw [show regLookup id i (x :: rest) b =
      (match regLookup id (i + 1) rest b with
       | some v => some v
       | none => if b = x then some (id, i) else none) from rfl]
    cases hr : regLookup id (i + 1) rest b with
    | some v =>
      simp only [List.mem_cons]
      constructor
      · intro h
        exact absurd h (by simp)
      · intro h
        exact absurd (Or.inr ((ih (i + 1) b).not_left.mp (by rw [hr]; simp))) h
    | none =>
      have hnr : b ∉ rest := (ih (i + 1) b).mp hr
      by_cases hbx : b = x
      · rw [if_pos hbx]
        simp [hbx]
      · rw [if_neg hbx]
        simp [hbx, hnr]

theorem regLookup_some (id : String) :
    ∀ (bs : List SigBit) (i : Nat) (b : SigBit) (v : String × Nat),
      regLookup id i bs b = some v →
      ∃ j, j < bs.length ∧ v = (id, i + j) ∧ bs.getD j (SigBit.cb RState.sx) = b := by
  intro bs
  induction bs with
  | nil => intro i b v h; exact absurd h (by simp [regLookup])
  | cons x rest ih =>
    intro i b v h
    rw [show regLookup id i (x :: rest) b =
      (match regLookup id (i + 1) rest b with
       | some w => some w
       | none => if b = x then some (id, i) else none) from rfl] at h
    cases hr : regLookup id (i + 1) rest b with
    | some w =>
      rw [hr] at h
      have hv : w = v := by simpa using h
      rcases ih (i + 1) b w hr with ⟨j, hj, hw, hget⟩
      refine ⟨j + 1, by simp; omega, ?_, ?_⟩
      · rw [← hv, hw]
        congr 1
        omega
      · simpa using hget
    | none =>
      rw [hr] at h
      by_cases hbx : b = x
      · rw [if_pos hbx] at h
        refine ⟨0, by simp, by simpa using h.symm, by simp [hbx]⟩
      · rw [if_neg hbx] at h
        exact absurd h (by simp)

theorem registerRWM_covered (r : RMap) (id : String) (sig : SigSpec) (b : SigBit)
    (h : b ∈ sigBits sig) :
    ∃ j, rmapLookup (registerRWM r id sig) b = some (id, j) ∧
      (sigBits sig).getD j (SigBit.cb RState.sx) = b := by
  rw [registerRWM, rmapLookup_registerAux]
  cases hr : regLookup id 0 (sigBits sig) b with
  | none => exact absurd ((regLookup_none_iff id _ 0 b).mp hr) (by simp [h])
  | some v =>
    rcases regLookup_some id _ 0 b v hr with ⟨j, hj, hv, hget⟩
    exact ⟨j, by simp [hv], hget⟩

theorem registerRWM_uncovered (r : RMap) (id : String) (sig : SigSpec) (b : SigBit)
    (h : b ∉ sigBits sig) :
    rmapLookup (registerRWM r id sig) b = rmapLookup r b := by
  rw [registerRWM, rmapLookup_registerAux]
  rw [(regLookup_none_iff id _ 0 b).mpr h]

theorem registerRWM_indep (r r2 : RMap) (id : String) (sig : SigSpec) (b : SigBit)
    (h : b ∈ sigBits sig) :
    rmapLookup (registerRWM r id sig) b = rmapLookup (registerRWM r2 id sig) b := by
  rw [registerRWM, registerRWM, rmapLookup_registerAux, rmapLookup_registerAux]
  cases hr : regLookup id 0 (sigBits sig) b with
  | none => exact absurd ((regLookup_none_iff id _ 0 b).mp hr) (by simp [h])
  | some v => rfl

theorem connsPass_warns :
    ∀ (conns : List (SigSpec × SigSpec)) (st : MState),
      (connsPass st conns).warns = st.warns ∧ (connsPass st conns).wireExprs = st.wireExprs := by
  intro conns
  induction conns with
  | nil => intro st; exact ⟨rfl, rfl⟩
  | cons pc rest ih => intro st; exact ih _

theorem connsPass_rmap_uncovered :
    ∀ (conns : List (SigSpec × SigSpec)) (st : MState) (b : SigBit),
      ¬connCovered conns b →
      rmapLookup (connsPass st conns).rmap b = rmapLookup st.rmap b := by
  intro conns
  induction conns with
  | nil => intro st b _; rfl
  | cons pc rest ih =>
    intro st b h
    have hpc : b ∉ sigBits pc.1 := by
      intro hb
      exact h ⟨pc, List.mem_cons_self _ _, hb⟩
    have hrest : ¬connCovered rest b := by
      rintro ⟨qc, hq, hb⟩
      exact h ⟨qc, List.mem_cons_of_mem _ hq, hb⟩
    rw [connsPass, ih _ b hrest]
    exact registerRWM_uncovered _ _ _ b hpc

theorem connsPass_rmap_indep :
    ∀ (conns : List (SigSpec × SigSpec)) (st1 st2 : MState) (b : SigBit), st1.g = st2.g →
      connCovered conns b →
      rmapLookup (connsPass st1 conns).rmap b = rmapLookup (connsPass st2 conns).rmap b := by
  intro conns
  induction conns with
  | nil =>
    rintro st1 st2 b hg ⟨pc, hpc, _⟩
    exact absurd hpc (by simp)
  | cons pc rest ih =>
    intro st1 st2 b hg hcov
    rw [connsPass, connsPass]
    by_cases hrest : connCovered rest b
    · refine ih _ _ b ?_ hrest
      show (makeExpr (nextId st1.g).2 pc.2).2 = (makeExpr (nextId st2.g).2 pc.2).2
      rw [hg]
    · have hpc : b ∈ sigBits pc.1 := by
        rcases hcov with ⟨qc, hq, hb⟩
        rcases List.mem_cons.mp hq with rfl | hq2
        · exact hb
        · exact absurd ⟨qc, hq2, hb⟩ hrest
      rw [connsPass_rmap_uncovered rest _ b hrest, connsPass_rmap_uncovered rest _ b hrest]
      show rmapLookup (registerRWM st1.rmap (nextId st1.g).1 pc.1) b =
        rmapLookup (registerRWM st2.rmap (nextId st2.g).1 pc.1) b
      rw [hg]
      exact registerRWM_indep _ _ _ _ b hpc

theorem connsPass_override (st : MState) (r2 : RMap) (conns : List (SigSpec × SigSpec))
    (b : SigBit) (h : connCovered conns b) :
    rmapLookup (connsPass { st with rmap := r2 } conns).rmap b =
      rmapLookup (connsPass st conns).rmap b :=
  connsPass_rmap_indep conns { st with rmap := r2 } st b rfl h

/-- Claim C10: the reverse wire map keeps only the most recently registered driver of
a bit (no warning or error on conflict), and the module-level connections pass -
run after all cells in FirrtlWorker::run - determines the final entry of every bit
its left-hand sides cover, whatever the cells registered before. -/
theorem reverse_map_last_writer_wins :
    (∀ (r : RMap) (id : String) (sig : SigSpec) (b : SigBit), b ∈ sigBits sig →
      ∃ j, rmapLookup (registerRWM r id sig) b = some (id, j) ∧
        (sigBits sig).getD j (SigBit.cb RState.sx) = b) ∧
    (∀ (r : RMap) (id : String) (sig : SigSpec) (b : SigBit), b ∉ sigBits sig →
      rmapLookup (registerRWM r id sig) b = rmapLookup r b) ∧
    (∀ (r r2 : RMap) (id : String) (sig : SigSpec) (b : SigBit), b ∈ sigBits sig →
      rmapLookup (registerRWM r id sig) b = rmapLookup (registerRWM r2 id sig) b) ∧
    (∀ (st : MState) (r2 : RMap) (conns : List (SigSpec × SigSpec)) (b : SigBit),
      connCovered conns b →
      rmapLookup (connsPass { st with rmap := r2 } conns).rmap b =
        rmapLookup (connsPass st conns).rmap b) ∧
    (∀ (st : MState) (conns : List (SigSpec × SigSpec)),
      (connsPass st conns).warns = st.warns ∧ (connsPass st conns).wireExprs = st.wireExprs) :=
  ⟨registerRWM_covered, registerRWM_uncovered, registerRWM_indep,
   fun st r2 conns b h => connsPass_override st r2 conns b h,
   fun st conns => connsPass_warns conns st⟩

/-- Witness for the reverse-map claim: registering a one-bit signal over an existing
entry yields the new driver at that bit. -/
theorem reverse_map_last_writer_wins_witness :
    (SigBit.wb ⟨"\\w", 1⟩ 0 ∈ sigBits [SigChunk.slice ⟨"\\w", 1⟩ 0 1]) ∧
    (∃ j, rmapLookup (registerRWM [(SigBit.wb ⟨"\\w", 1⟩ 0, ("old", 5))] "c2"
        [SigChunk.slice ⟨"\\w", 1⟩ 0 1]) (SigBit.wb ⟨"\\w", 1⟩ 0) = some ("c2", j) ∧
      (sigBits [SigChunk.slice ⟨"\\w", 1⟩ 0 1]).getD j (SigBit.cb RState.sx) =
        SigBit.wb ⟨"\\w", 1⟩ 0) :=
  ⟨by decide,
   reverse_map_last_writer_wins.1 [(SigBit.wb ⟨"\\w", 1⟩ 0, ("old", 5))] "c2"
     [SigChunk.slice ⟨"\\w", 1⟩ 0 1] (SigBit.wb ⟨"\\w", 1⟩ 0) (by decide)⟩

/-! ## Memory rejection (claim C3) -/

theorem memReadLoop_ok (memId cname : String) (rdClkEn : Const) (width abits : Nat)
    (rdData rdAddr : SigSpec) :
    ∀ (idxs : List Nat) (st st' : MState),
      memReadLoop memId cname rdClkEn width abits rdData rdAddr st idxs = Except.ok st' →
      ∀ i ∈ idxs, rdClkEn.getD i RState.sx = RState.s0 := by
  intro idxs
  induction idxs with
  | nil =>
    intro st st' _ i hi
    exact absurd hi (by simp)
  | cons i rest ih =>
    intro st st' h j hj
    rw [memReadLoop] at h
    split at h
    · exact absurd h (by simp)
    · rename_i hcond
      have hc : rdClkEn.getD i RState.sx = RState.s0 := by
        by_contra hne
        exact hcond (by rw [beq_eq_false_iff_ne.mpr hne]; rfl)
      rcases List.mem_cons.mp hj with rfl | hj2
      · exact hc
      · exact ih _ _ h j hj2

theorem wenCheck_ok (mname cname : String) (wen : List SigBit) :
    ∀ (idxs : List Nat), wenCheck mname cname wen idxs = Except.ok () →
      ∀ j ∈ idxs, wen.getD j (SigBit.cb RState.sx) = wen.getD 0 (SigBit.cb RState.sx) := by
  intro idxs
  induction idxs with
  | nil =>
    intro _ j hj
    exact absurd hj (by simp)
  | cons i rest ih =>
    intro h j hj
    rw [wenCheck] at h
    split at h
    · exact absurd h (by simp)
    · rename_i hcond
      have hc : wen.getD i (SigBit.cb RState.sx) = wen.getD 0 (SigBit.cb RState.sx) := by
        by_contra hne
        exact hcond (by rw [beq_eq_false_iff_ne.mpr (fun he => hne he.symm)]; rfl)
      rcases List.mem_cons.mp hj with rfl | hj2
      · exact hc
      · exact ih h j hj2

theorem memWriteLoop_ok (memId cname : String) (wrClkEn wrClkPol : Const) (width abits : Nat)
    (wrData wrAddr wrClk wrEn : SigSpec) :
    ∀ (idxs : List Nat) (st st' : MState),
      memWriteLoop memId cname wrClkEn wrClkPol width abits wrData wrAddr wrClk wrEn st idxs =
        Except.ok st' →
      ∀ i ∈ idxs, wrClkEn.getD i RState.sx = RState.s1 ∧
        wrClkPol.getD i RState.sx = RState.s1 ∧
        (∀ j ∈ (List.range (wenBitsW wrEn width i).length).drop 1,
          (wenBitsW wrEn width i).getD j (SigBit.cb RState.sx) =
            (wenBitsW wrEn width i).getD 0 (SigBit.cb RState.sx)) := by
  intro idxs
  induction idxs with
  | nil =>
    intro st st' _ i hi
    exact absurd hi (by simp)
  | cons i rest ih =>
    intro st st' h j hj
    rw [memWriteLoop] at h
    split at h
    · exact absurd h (by simp)
    · rename_i hcond1
      split at h
      · exact absurd h (by simp)
      · rename_i hcond2
        have hc1 : wrClkEn.getD i RState.sx = RState.s1 := by
          by_contra hne
          exact hcond1 (by rw [beq_eq_false_iff_ne.mpr hne]; rfl)
        have hc2 : wrClkPol.getD i RState.sx = RState.s1 := by
          by_contra hne
          exact hcond2 (by rw [beq_eq_false_iff_ne.mpr hne]; rfl)
        dsimp only at h
        split at h
        · exact absurd h (by simp)
        · rename_i u hwen
          rcases List.mem_cons.mp hj with rfl | hj2
          · exact ⟨hc1, hc2, wenCheck_ok _ _ _ _ hwen⟩
          · exact ih _ _ h j hj2

theorem emitMem_ok (st st' : MState) (c : Cell) (h : emitMem st c = Except.ok st') :
    (∀ b ∈ c.paramAt initKey, b = RState.sx) ∧
    constAsInt (c.paramAt offsetKey) = 0 ∧
    (∀ i ∈ List.range (constAsInt (c.paramAt rdPortsKey)),
      (c.paramAt rdClkEnKey).getD i RState.sx = RState.s0) ∧
    (∀ i ∈ List.range (constAsInt (c.paramAt wrPortsKey)),
      (c.paramAt wrClkEnKey).getD i RState.sx = RState.s1 ∧
      (c.paramAt wrClkPolKey).getD i RState.sx = RState.s1 ∧
      (∀ j ∈ (List.range (wenBitsW (c.portAt wrEnKey) (constAsInt (c.paramAt widthKey))
          i).length).drop 1,
        (wenBitsW (c.portAt wrEnKey) (constAsInt (c.paramAt widthKey)) i).getD j
            (SigBit.cb RState.sx) =
          (wenBitsW (c.portAt wrEnKey) (constAsInt (c.paramAt widthKey)) i).getD 0
            (SigBit.cb RState.sx))) := by
  rw [emitMem] at h
  split at h
  · exact absurd h (by simp)
  · rename_i hinit
    split at h
    · exact absurd h (by simp)
    · rename_i hoff
      dsimp only at h
      split at h
      · exact absurd h (by simp)
      · rename_i st2 hread
        refine ⟨?_, ?_, ?_, ?_⟩
        · intro b hb
          by_contra hne
          exact hinit (by rw [List.any_eq_true]; exact ⟨b, hb, by simp [hne]⟩)
        · by_contra hne
          exact hoff (by simp [hne])
        · exact memReadLoop_ok _ _ _ _ _ _ _ _ _ _ hread
        · exact memWriteLoop_ok _ _ _ _ _ _ _ _ _ _ _ _ _ h

theorem mem_range_drop_one (j n : Nat) : j ∈ (List.range n).drop 1 ↔ 1 ≤ j ∧ j < n := by
  cases n with
  | zero => simp
  | succ m =>
    rw [List.range_succ_eq_map]
    show j ∈ (List.range m).map Nat.succ ↔ _
    rw [List.mem_map]
    constructor
    · rintro ⟨k, hk, rfl⟩
      have := List.mem_range.mp hk
      omega
    · rintro ⟨h1, h2⟩
      exact ⟨j - 1, List.mem_range.mpr (by omega), by omega⟩

/-- Claim C3: the $mem branch raises a fatal error on nonzero OFFSET, on any
defined INIT bit, on a clocked read port, on an unclocked or negedge write port,
and on non-uniform per-bit write enables; in particular a $mem whose only flaw is
RD_CLK_ENABLE[0] = 1 is rejected with the clocked-read-port error for port 0. -/
theorem mem_unsupported_configs_rejected :
    (∀ (d : Design) (st : MState) (c : Cell), c.ctype = "$mem" →
      emitCell d st c = emitMem st c) ∧
    (∀ (st : MState) (c : Cell), constAsInt (c.paramAt offsetKey) ≠ 0 →
      ∃ e, emitMem st c = Except.error e) ∧
    (∀ (st : MState) (c : Cell) (b : RState), b ∈ c.paramAt initKey →
      b = RState.s0 ∨ b = RState.s1 → ∃ e, emitMem st c = Except.error e) ∧
    (∀ (st : MState) (c : Cell) (i : Nat), i < constAsInt (c.paramAt rdPortsKey) →
      (c.paramAt rdClkEnKey).getD i RState.sx ≠ RState.s0 →
      ∃ e, emitMem st c = Except.error e) ∧
    (∀ (st : MState) (c : Cell) (i : Nat), i < constAsInt (c.paramAt wrPortsKey) →
      (c.paramAt wrClkEnKey).getD i RState.sx ≠ RState.s1 →
      ∃ e, emitMem st c = Except.error e) ∧
    (∀ (st : MState) (c : Cell) (i : Nat), i < constAsInt (c.paramAt wrPortsKey) →
      (c.paramAt wrClkPolKey).getD i RState.sx ≠ RState.s1 →
      ∃ e, emitMem st c = Except.error e) ∧
    (∀ (st : MState) (c : Cell) (i j : Nat), i < constAsInt (c.paramAt wrPortsKey) →
      1 ≤ j → j < (wenBitsW (c.portAt wrEnKey) (constAsInt (c.paramAt widthKey)) i).length →
      (wenBitsW (c.portAt wrEnKey) (constAsInt (c.paramAt widthKey)) i).getD j
          (SigBit.cb RState.sx) ≠
        (wenBitsW (c.portAt wrEnKey) (constAsInt (c.paramAt widthKey)) i).getD 0
          (SigBit.cb RState.sx) →
      ∃ e, emitMem st c = Except.error e) ∧
    (∀ (st : MState) (c : Cell), (∀ b ∈ c.paramAt initKey, b = RState.sx) →
      constAsInt (c.paramAt offsetKey) = 0 → 0 < constAsInt (c.paramAt rdPortsKey) →
      (c.paramAt rdClkEnKey).getD 0 RState.sx ≠ RState.s0 →
      emitMem st c = Except.error (EmitErr.memClockedRead 0 st.mname c.name)) := by
  refine ⟨?_, ?_, ?_, ?_, ?_, ?_, ?_, ?_⟩
  · intro d st c hc
    rw [emitCell, if_neg (by rw [hc]; decide), if_neg (by rw [hc]; decide),
      if_neg (by rw [hc]; decide), if_neg (by rw [hc]; decide), if_pos (by rw [hc]; decide)]
  · intro st c hoff
    cases hres : emitMem st c with
    | error e => exact ⟨e, rfl⟩
    | ok st' => exact absurd (emitMem_ok st st' c hres).2.1 hoff
  · intro st c b hb hdef
    cases hres : emitMem st c with
    | error e => exact ⟨e, rfl⟩
    | ok st' =>
      have := (emitMem_ok st st' c hres).1 b hb
      rcases hdef with rfl | rfl <;> simp at this
  · intro st c i hi hne
    cases hres : emitMem st c with
    | error e => exact ⟨e, rfl⟩
    | ok st' =>
      exact absurd ((emitMem_ok st st' c hres).2.2.1 i (List.mem_range.mpr hi)) hne
  · intro st c i hi hne
    cases hres : emitMem st c with
    | error e => exact ⟨e, rfl⟩
    | ok st' =>
      exact absurd ((emitMem_ok st st' c hres).2.2.2 i (List.mem_range.mpr hi)).1 hne
  · intro st c i hi hne
    cases hres : emitMem st c with
    | error e => exact ⟨e, rfl⟩
    | ok st' =>
      exact absurd ((emitMem_ok st st' c hres).2.2.2 i (List.mem_range.mpr hi)).2.1 hne
  · intro st c i j hi hj1 hj2 hne
    cases hres : emitMem st c with
    | error e => exact ⟨e, rfl⟩
    | ok st' =>
      exact absurd (((emitMem_ok st st' c hres).2.2.2 i (List.mem_range.mpr hi)).2.2 j
        ((mem_range_drop_one j _).mpr ⟨hj1, hj2⟩)) hne
  · intro st c hinit hoff hrd hclk
    rcases Nat.exists_eq_succ_of_ne_zero (Nat.pos_iff_ne_zero.mp hrd) with ⟨m, hm⟩
    rw [emitMem]
    rw [if_neg (by
      rw [List.any_eq_true]
      rintro ⟨b, hb, hpb⟩
      rw [hinit b hb] at hpb
      simp at hpb)]
    rw [if_neg (by rw [hoff]; simp)]
    dsimp only
    rw [hm, List.range_succ_eq_map, memReadLoop]
    rw [beq_eq_false_iff_ne.mpr hclk]
    rfl

/-- Witness for the memory-rejection claim: a $mem cell whose RD_CLK_ENABLE[0] is 1
is rejected with the clocked-read-port error for port 0. -/
theorem mem_unsupported_configs_rejected_witness :
    (∀ b ∈ cellMemBad.paramAt initKey, b = RState.sx) ∧
    constAsInt (cellMemBad.paramAt offsetKey) = 0 ∧
    0 < constAsInt (cellMemBad.paramAt rdPortsKey) ∧
    (cellMemBad.paramAt rdClkEnKey).getD 0 RState.sx ≠ RState.s0 ∧
    emitMem mst0 cellMemBad = Except.error (EmitErr.memClockedRead 0 "\\top" "\\mem0") :=
  ⟨by decide, by decide, by decide, by decide,
   mem_unsupported_configs_rejected.2.2.2.2.2.2.2 mst0 cellMemBad (by decide) (by decide)
     (by decide) (by decide)⟩

/-! ## Wire reassembly (claim C4) -/

theorem runLen_spec (rmap : RMap) (w : WireRef) (width : Nat) (cursor : Nat) (id : String)
    (off : Nat) :
    ∀ (fuel cw : Nat), 1 ≤ cw → cursor + cw ≤ width →
      (∀ k, k < cw → rmapLookup rmap (SigBit.wb w (cursor + k)) = some (id, off + k)) →
      width ≤ cursor + cw + fuel →
      1 ≤ runLen rmap w width cursor id off cw fuel ∧
      cursor + runLen rmap w width cursor id off cw fuel ≤ width ∧
      (∀ k, k < runLen rmap w width cursor id off cw fuel →
        rmapLookup rmap (SigBit.wb w (cursor + k)) = some (id, off + k)) ∧
      (cursor + runLen rmap w width cursor id off cw fuel = width ∨
        rmapLookup rmap (SigBit.wb w (cursor + runLen rmap w width cursor id off cw fuel)) ≠
          some (id, off + runLen rmap w width cursor id off cw fuel)) := by
  intro fuel
  induction fuel with
  | zero =>
    intro cw h1 h2 hk hb
    rw [runLen]
    exact ⟨h1, h2, hk, Or.inl (by omega)⟩
  | succ f ih =>
    intro cw h1 h2 hk hb
    rw [runLen]
    by_cases hlt : cursor + cw < width
    · rw [if_pos hlt]
      by_cases heq : rmapLookup rmap (SigBit.wb w (cursor + cw)) = some (id, off + cw)
      · rw [if_pos heq]
        refine ih (cw + 1) (by omega) (by omega) ?_ (by omega)
        intro k hks
        by_cases hk2 : k < cw
        · exact hk k hk2
        · have hkc : k = cw := by omega
          rw [hkc]
          exact heq
      · rw [if_neg heq]
        exact ⟨h1, h2, hk, Or.inr heq⟩
    · rw [if_neg hlt]
      exact ⟨h1, h2, hk, Or.inl (by omega)⟩

theorem nextIdLoop_shape (used : List String) :
    ∀ (fuel a : Nat), ∃ b, (nextIdLoop used a fuel).1 = "_" ++ natToDec b := by
  intro fuel
  induction fuel with
  | zero => intro a; exact ⟨a, rfl⟩
  | succ f ih =>
    intro a
    rw [nextIdLoop]
    by_cases h : memB ("_" ++ natToDec a) used
    · rw [if_pos h]
      exact ih (a + 1)
    · rw [if_neg h]
      exact ⟨a, rfl⟩

theorem nextId_ne_empty (g : GState) : (nextId g).1 ≠ "" := by
  obtain ⟨b, hb⟩ := nextIdLoop_shape g.used (g.used.length + 1) g.autoid
  show (nextIdLoop g.used g.autoid (g.used.length + 1)).1 ≠ ""
  rw [hb]
  intro h
  have := congrArg String.length h
  rw [string_length_append] at this
  have h1 : ("_" : String).length = 1 := rfl
  have h0 : ("" : String).length = 0 := rfl
  omega

theorem wireWalk_spec (rmap : RMap) (w : WireRef) (width : Nat) :
    ∀ (fuel : Nat) (g : GState) (unconn : String) (mku : Bool) (cursor : Nat),
      cursor ≤ width → width ≤ cursor + fuel →
      WalkOK rmap w width cursor (wireWalk rmap w width g unconn mku cursor fuel).chunks ∧
      WalkHoles unconn mku (wireWalk rmap w width g unconn mku cursor fuel) := by
  intro fuel
  induction fuel with
  | zero =>
    intro g unconn mku cursor hcw hwc
    have hcur : cursor = width := by omega
    rw [wireWalk]
    refine ⟨hcur, ?_, ?_⟩
    · intro hne
      exact ⟨rfl, rfl, by intro u hu; exact absurd hu (by simp [holeIds])⟩
    · intro he
      exact Or.inl ⟨rfl, he, rfl⟩
  | succ f ih =>
    intro g unconn mku cursor hcw hwc
    rw [wireWalk]
    by_cases hlt : cursor < width
    · rw [if_pos hlt]
      cases hlo : rmapLookup rmap (SigBit.wb w cursor) with
      | some e =>
        dsimp only
        obtain ⟨hr1, hr2, hr3, hr4⟩ :=
          runLen_spec rmap w width cursor e.1 e.2 width 1 (le_refl 1) (by omega)
            (by
              intro k hk
              interval_cases k
              simpa using hlo)
            (by omega)
        obtain ⟨hOK, hHoles⟩ := ih g unconn mku
          (cursor + runLen rmap w width cursor e.1 e.2 1 width) hr2 (by omega)
        refine ⟨⟨hlt, hr1, hr2, hr3, hr4, hOK⟩, ?_, ?_⟩
        · intro hne
          obtain ⟨ha, hb', hc'⟩ := hHoles.1 hne
          exact ⟨ha, hb', fun u hu => hc' u hu⟩
        · intro he
          rcases hHoles.2 he with ⟨h1, h2, h3⟩ | ⟨h1, h2, h3⟩
          · exact Or.inl ⟨h1, h2, h3⟩
          · exact Or.inr ⟨h1, h2, fun u hu => h3 u hu⟩
      | none =>
        dsimp only
        by_cases hue : unconn = ""
        · rw [if_pos (by rw [beq_iff_eq]; exact hue)]
          obtain ⟨hOK, hHoles⟩ := ih (nextId g).2 (nextId g).1 true (cursor + 1)
            (by omega) (by omega)
          have hne : (nextId g).1 ≠ "" := nextId_ne_empty g
          obtain ⟨ha, hb', hc'⟩ := hHoles.1 hne
          refine ⟨⟨hlt, hlo, hOK⟩, ?_, ?_⟩
          · intro h
            exact absurd hue h
          · intro _
            refine Or.inr ⟨?_, ?_, ?_⟩
            · show (wireWalk rmap w width (nextId g).2 (nextId g).1 true (cursor + 1) f).unconn ≠ ""
              rw [ha]
              exact hne
            · exact hb'
            · intro x hx
              rcases List.mem_cons.mp hx with rfl | hx2
              · exact ha.symm
              · rw [ha]
                exact hc' x hx2
        · rw [if_neg (fun hmem => hue (beq_iff_eq.mp hmem))]
          obtain ⟨hOK, hHoles⟩ := ih g unconn mku (cursor + 1) (by omega) (by omega)
          obtain ⟨ha, hb', hc'⟩ := hHoles.1 hue
          refine ⟨⟨hlt, hlo, hOK⟩, ?_, ?_⟩
          · intro _
            refine ⟨ha, hb', ?_⟩
            intro u hu
            rcases List.mem_cons.mp hu with rfl | hu2
            · rfl
            · exact hc' u hu2
          · intro h
            exact absurd h hue
    · rw [if_neg hlt]
      have hcur : cursor = width := by omega
      refine ⟨hcur, ?_, ?_⟩
      · intro hne
        exact ⟨rfl, rfl, by intro u hu; exact absurd hu (by simp [holeIds])⟩
      · intro he
        exact Or.inl ⟨rfl, he, rfl⟩

theorem emitWire_unconn_stable (st : MState) (w : Wire) (h : st.unconn ≠ "") :
    (emitWire st w).unconn = st.unconn := by
  rw [emitWire]
  by_cases hin : w.portInput = true
  · rw [if_pos hin]
  · rw [if_neg hin]
    dsimp only
    obtain ⟨_, hHoles⟩ := wireWalk_spec st.rmap ⟨w.name, w.width⟩ w.width w.width st.g
      st.unconn false 0 (Nat.zero_le _) (by omega)
    obtain ⟨ha, hb', _⟩ := hHoles.1 h
    by_cases hd : hasDriven
        (wireWalk st.rmap ⟨w.name, w.width⟩ w.width st.g st.unconn false 0 w.width).chunks = true
    · rw [if_pos hd]
      exact ha
    · rw [if_neg hd]
      show (if (wireWalk st.rmap ⟨w.name, w.width⟩ w.width st.g st.unconn false 0
          w.width).makeUnconn then "" else
          (wireWalk st.rmap ⟨w.name, w.width⟩ w.width st.g st.unconn false 0 w.width).unconn) =
        st.unconn
      rw [hb']
      exact ha

theorem wiresPass_unconn_stable :
    ∀ (ws : List Wire) (st : MState), st.unconn ≠ "" →
      (List.foldl emitWire st ws).unconn = st.unconn := by
  intro ws
  induction ws with
  | nil => intro st _; rfl
  | cons w rest ih =>
    intro st h
    show (List.foldl emitWire (emitWire st w) rest).unconn = st.unconn
    rw [ih _ (by rw [emitWire_unconn_stable st w h]; exact h), emitWire_unconn_stable st w h]

/-- Claim C4: the final wire pass walks each non-input wire's bits in ascending
order, grouping maximal runs of consecutive reverse-map entries into one
bits(id, hi, lo) chunk each; undriven bits map to the single lazily allocated
per-module invalid-sentinel wire; a wire with at least one driven bit is assigned
the cat-fold of its chunks, a wire with none is itself declared invalid, and the
two cases exclude each other. -/
theorem wire_reassembly_correct (st : MState) (w : Wire) (hin : w.portInput = false) :
    WalkOK st.rmap ⟨w.name, w.width⟩ w.width 0
      (wireWalk st.rmap ⟨w.name, w.width⟩ w.width st.g st.unconn false 0 w.width).chunks ∧
    WalkHoles st.unconn false
      (wireWalk st.rmap ⟨w.name, w.width⟩ w.width st.g st.unconn false 0 w.width) ∧
    (hasDriven (wireWalk st.rmap ⟨w.name, w.width⟩ w.width st.g st.unconn false 0
        w.width).chunks = true →
      (emitWire st w).wireExprs = st.wireExprs ++
        ["    " ++ (makeId (wireWalk st.rmap ⟨w.name, w.width⟩ w.width st.g st.unconn false 0
            w.width).g w.name).1 ++ " <= " ++
          renderChunks (wireWalk st.rmap ⟨w.name, w.width⟩ w.width st.g st.unconn false 0
            w.width).chunks ++ "\n"] ∧
      (emitWire st w).wireDecls = st.wireDecls ++
        (if (wireWalk st.rmap ⟨w.name, w.width⟩ w.width st.g st.unconn false 0
            w.width).makeUnconn then
          ["    wire " ++ (wireWalk st.rmap ⟨w.name, w.width⟩ w.width st.g st.unconn false 0
              w.width).unconn ++ ": UInt<1>\n",
           "    " ++ (wireWalk st.rmap ⟨w.name, w.width⟩ w.width st.g st.unconn false 0
              w.width).unconn ++ " is invalid\n"]
         else []) ∧
      (emitWire st w).unconn =
        (wireWalk st.rmap ⟨w.name, w.width⟩ w.width st.g st.unconn false 0 w.width).unconn) ∧
    (hasDriven (wireWalk st.rmap ⟨w.name, w.width⟩ w.width st.g st.unconn false 0
        w.width).chunks = false →
      (emitWire st w).wireDecls = st.wireDecls ++
        ["    " ++ (makeId (wireWalk st.rmap ⟨w.name, w.width⟩ w.width st.g st.unconn false 0
            w.width).g w.name).1 ++ " is invalid\n"] ∧
      (emitWire st w).wireExprs = st.wireExprs ∧
      (emitWire st w).unconn =
        (if (wireWalk st.rmap ⟨w.name, w.width⟩ w.width st.g st.unconn false 0
            w.width).makeUnconn then ""
         else (wireWalk st.rmap ⟨w.name, w.width⟩ w.width st.g st.unconn false 0
            w.width).unconn)) ∧
    (st.unconn ≠ "" → (emitWire st w).unconn = st.unconn) ∧
    (∀ ws : List Wire, st.unconn ≠ "" → (List.foldl emitWire st ws).unconn = st.unconn) := by
  obtain ⟨hOK, hHoles⟩ := wireWalk_spec st.rmap ⟨w.name, w.width⟩ w.width w.width st.g
    st.unconn false 0 (Nat.zero_le _) (by omega)
  refine ⟨hOK, hHoles, ?_, ?_, emitWire_unconn_stable st w, fun ws h =>
    wiresPass_unconn_stable ws st h⟩
  · intro hd
    rw [emitWire, if_neg (by rw [hin]; simp)]
    dsimp only
    rw [if_pos hd]
    exact ⟨rfl, rfl, rfl⟩
  · intro hd
    rw [emitWire, if_neg (by rw [hin]; simp)]
    dsimp only
    rw [if_neg (by rw [hd]; simp)]
    exact ⟨rfl, rfl, rfl⟩

/-- Witness for the wire-reassembly claim: a three-bit wire whose low two bits are
driven by x gives one maximal driven chunk and one sentinel hole. -/
theorem wire_reassembly_correct_witness :
    wWitness.portInput = false ∧
    (wireWalk mstWitness.rmap ⟨"\\w", 3⟩ 3 mstWitness.g "" false 0 3).chunks =
      [RChunk.driven "x" 0 2, RChunk.hole "_0"] ∧
    WalkOK mstWitness.rmap ⟨"\\w", 3⟩ 3 0
      (wireWalk mstWitness.rmap ⟨"\\w", 3⟩ 3 mstWitness.g "" false 0 3).chunks :=
  ⟨rfl, by decide, (wire_reassembly_correct mstWitness wWitness rfl).1⟩

/-! ## Mux argument order (claim C8) -/

/-- Claim C8: every $mux cell gets a result wire of width WIDTH and the expression
mux(S, B, A) - the source's S is the FIRRTL condition, B the then-value, A the
else-value; concretely, ports A=x, B=y, S=s emit mux(s, y, x) and not mux(s, x, y). -/
theorem mux_argument_order (d : Design) (st : MState) (c : Cell) (hc : c.ctype = "$mux") :
    emitCell d st c = Except.ok (emitMux st c) ∧
    emitMux st c = { st with
      g := (makeExpr (makeExpr (makeExpr (makeId st.g c.name).2 (c.portAt aKey)).2
        (c.portAt bKey)).2 (c.portAt sKey)).2,
      wireDecls := st.wireDecls ++ ["    wire " ++ (makeId st.g c.name).1 ++ ": UInt<" ++
        natToDec (constAsInt (c.paramAt widthKey)) ++ ">\n"],
      cellExprs := st.cellExprs ++ ["    " ++ (makeId st.g c.name).1 ++ " <= mux(" ++
        (makeExpr (makeExpr (makeExpr (makeId st.g c.name).2 (c.portAt aKey)).2
          (c.portAt bKey)).2 (c.portAt sKey)).1 ++ ", " ++
        (makeExpr (makeExpr (makeId st.g c.name).2 (c.portAt aKey)).2 (c.portAt bKey)).1 ++
        ", " ++ (makeExpr (makeId st.g c.name).2 (c.portAt aKey)).1 ++ ")\n"],
      rmap := registerRWM st.rmap (makeId st.g c.name).1 (c.portAt yKey) } ∧
    (emitMux mst0 cellMux).cellExprs = ["    m0 <= mux(s, y, x)\n"] ∧
    (emitMux mst0 cellMux).cellExprs ≠ ["    m0 <= mux(s, x, y)\n"] ∧
    (emitMux mst0 cellMux).wireDecls = ["    wire m0: UInt<1>\n"] := by
  refine ⟨?_, rfl, by decide, by decide, by decide⟩
  rw [emitCell, hc]
  rfl

/-- Witness for the mux claim at the concrete cell. -/
theorem mux_argument_order_witness :
    cellMux.ctype = "$mux" ∧
    emitCell dEmpty mst0 cellMux = Except.ok (emitMux mst0 cellMux) :=
  ⟨rfl, (mux_argument_order dEmpty mst0 cellMux rfl).1⟩

/-! ## Signed add (claim C5) -/

/-- Claim C5: an 8-bit fully signed $add with whole-wire operands a and b emits an
assignment whose expression is asUInt(add(asSInt(a), asSInt(b))). -/
theorem signed_add_emission :
    emitCell dEmpty mst0 cellAdd = Except.ok (emitBinary mst0 cellAdd) ∧
    (emitBinary mst0 cellAdd).cellExprs =
      ["    add0 <= " ++ "asUInt(add(asSInt(a), asSInt(b)))" ++ "\n"] ∧
    (∃ pre post, (emitBinary mst0 cellAdd).cellExprs =
      [pre ++ "asUInt(add(asSInt(a), asSInt(b)))" ++ post]) :=
  ⟨rfl, by decide, ⟨"    add0 <= ", "\n", by decide⟩⟩

/-! ## Dynamic left shift (claim C2) -/

/-- Counterexample to claim C2: for the $shl cell with Y_WIDTH=8, B_WIDTH=32 and a
non-constant shift amount, the emitted expression is not the claimed
bits(dshl(pad(a, 8), mux(gt(b, UInt<19>(524287)), UInt<19>(524287), bits(b, 18, 0))), 7, 0) -
the code does not pad a and wraps the guarded shift amount in asUInt. -/
theorem dshl_claim_counterexample :
    (emitBinary mst0 cellShl).cellExprs ≠
      ["    shl0 <= bits(dshl(pad(a, 8), mux(gt(b, UInt<19>(524287)), UInt<19>(524287), bits(b, 18, 0))), 7, 0)\n"] := by
  decide

/-- Amended claim C2: the emitted expression is
bits(dshl(a, asUInt(mux(gt(b, UInt<19>(524287)), UInt<19>(524287), bits(b, 18, 0)))), 7, 0). -/
theorem dshl_amended_emission :
    emitCell dEmpty mst0 cellShl = Except.ok (emitBinary mst0 cellShl) ∧
    (emitBinary mst0 cellShl).cellExprs =
      ["    shl0 <= bits(dshl(a, asUInt(mux(gt(b, UInt<19>(524287)), UInt<19>(524287), bits(b, 18, 0)))), 7, 0)\n"] :=
  ⟨rfl, by decide⟩

/-! ## Reset of the global name state (claim C1) -/

/-- Claim C1 fails on the code: execute clears the namecache and the counter at run
entry and exit but never clears used_names, so a second run on the same design
renames every identifier with a trailing underscore and the output differs. -/
theorem used_names_not_reset_two_runs_differ :
    executeRun designTop1 gInit =
      Except.ok ("circuit top:\n  module top:\n\n\n\n", ⟨[], ["top"], 0⟩) ∧
    executeRun designTop1 ⟨[], ["top"], 0⟩ =
      Except.ok ("circuit top_:\n  module top_:\n\n\n\n", ⟨[], ["top_", "top"], 0⟩) ∧
    ("circuit top:\n  module top:\n\n\n\n" : String) ≠
      "circuit top_:\n  module top_:\n\n\n\n" :=
  ⟨rfl, rfl, by decide⟩

/-! ## Instance with missing callee (claim C9) -/

/-- Claim C9: a subcircuit-instance cell whose type names no module in the design
produces a warning, no inst statement and no port assignments, and the module run
completes normally. -/
theorem missing_callee_instance_skipped (d : Design) (st : MState) (c : Cell)
    (h1 : strStarts "$" c.ctype = false) (h2 : d.findModule c.ctype = none) :
    emitCell d st c = Except.ok { st with
      g := (makeId (makeId st.g c.ctype).2 c.name).2,
      warns := st.warns ++ ["No instance for " ++ (makeId st.g c.ctype).1 ++ "." ++
        (makeId (makeId st.g c.ctype).2 c.name).1] } ∧
    (∀ (mn : String) (tA : Bool) (g : GState),
      ∃ res, runModule d g ⟨mn, [], [c], [], tA⟩ = Except.ok res) := by
  have hcell : ∀ st2 : MState, emitCell d st2 c = Except.ok (processInstance st2 d c) := by
    intro st2
    rw [emitCell, if_pos (by rw [h1]; rfl)]
  have hproc : ∀ st2 : MState, processInstance st2 d c = { st2 with
      g := (makeId (makeId st2.g c.ctype).2 c.name).2,
      warns := st2.warns ++ ["No instance for " ++ (makeId st2.g c.ctype).1 ++ "." ++
        (makeId (makeId st2.g c.ctype).2 c.name).1] } := by
    intro st2
    rw [processInstance]
    dsimp only
    rw [h2]
  constructor
  · rw [hcell st, hproc st]
  · intro mn tA g
    rw [runModule]
    dsimp only
    rw [show wireDeclPass (initMState (makeId g mn).2 mn) [] =
      Except.ok (initMState (makeId g mn).2 mn) from rfl]
    dsimp only
    rw [show cellsPass d (initMState (makeId g mn).2 mn) [c] =
        (match emitCell d (initMState (makeId g mn).2 mn) c with
         | Except.error e => Except.error e
         | Except.ok st1 => cellsPass d st1 []) from rfl]
    rw [hcell _]
    exact ⟨_, rfl⟩

/-- Witness for the missing-callee claim at the concrete cell U0 of type foo_mod in
an empty design. -/
theorem missing_callee_instance_skipped_witness :
    strStarts "$" cellInstMissing.ctype = false ∧
    dEmpty.findModule cellInstMissing.ctype = none ∧
    (processInstance mst0 dEmpty cellInstMissing).warns = ["No instance for foo_mod.U0"] ∧
    (processInstance mst0 dEmpty cellInstMissing).wireExprs = [] ∧
    emitCell dEmpty mst0 cellInstMissing = Except.ok { mst0 with
      g := (makeId (makeId mst0.g cellInstMissing.ctype).2 cellInstMissing.name).2,
      warns := mst0.warns ++ ["No instance for " ++
        (makeId mst0.g cellInstMissing.ctype).1 ++ "." ++
        (makeId (makeId mst0.g cellInstMissing.ctype).2 cellInstMissing.name).1] } :=
  ⟨by decide, rfl, by decide, rfl,
   (missing_callee_instance_skipped dEmpty mst0 cellInstMissing (by decide) rfl).1⟩

end FirB
